import Mathlib

/-!
# CppND-Garbage-Collector: the reference-counted `Pointer` and its registry

Shallow embedding of `src/gc_details.h`, `src/gc_iterator.h` and `src/gc_pointer.h`.

Modelling conventions
* An address (`T*`) is a natural number; `nullptr` is `0`.
* `unsigned` and `int` are 32 bits wide: an `unsigned` value is a natural number below
  `UINT_MOD`, `++` on it wraps modulo `UINT_MOD`, and an `int` converted to `unsigned` is
  reduced modulo `UINT_MOD`.  `size_t` is wider than `int`; a size returned as `int` keeps
  its low 32 bits (two's complement).
* The static member `ref_container_` (a `std::list<PtrDetails<T>>`) of one instantiation
  `Pointer<T, size>` is a `List PtrDetails`, passed explicitly and returned; a list
  iterator is a position in the list, `end()` is `none`.
* The template argument `size` is a parameter `size : Int` of the operations.
* A position of a cursor (`Iter<T>`) is an integer counted in elements; the memory a cursor
  reads is a function `mem` from positions to elements; a throwing operator returns
  `Except OutOfRangeExc`.  An operator that changes its receiver returns the receiver
  afterwards together with its result.
* The static flag `first` and the `atexit` registration neither read nor write
  `ref_container_` and are left out.
* `delete p->mem_ptr` and `delete[] p->mem_ptr` in `Collect` run the destructor of `T`.  The
  operations come in two forms.  `Pointer.Collect`, `Pointer.dtor`, `Pointer.assign_raw`,
  `Pointer.assign` (and `applyOp`, `runOps`, `exec` built on them) are the operations for an
  element type whose destructor destroys no `Pointer<T, size>` (`int`, or any `T` without
  such members): there `delete` does not touch `ref_container_`.  `Pointer.Collect_del`,
  `Pointer.dtor_del`, `Pointer.assign_raw_del`, `Pointer.assign_del` (and `applyOp_del`,
  `runOps_del`) are the operations for any element type: they take the handles each object
  owns and follow the nested `~Pointer` and `Collect` calls that `delete` makes.  The two
  forms agree when no object owns a handle (`Pointer.Collect_del_no_owned`,
  `Pointer.dtor_del_no_owned`).
* In `Collect` the erased record is still read through `p` (`p->is_array`, `p->mem_ptr`) and
  `p` is compared with `end()` after `erase(p)`; the record read is the erased one and the
  erased position is taken to differ from `end()`, which is what lets the outer loop scan
  again.
-/

namespace GC

/-! ## Machine integers -/

/-- Number of values of the type `unsigned`. -/
def UINT_MOD : Nat := 4294967296

/-- Conversion of an integer value to `unsigned` (reduction modulo `UINT_MOD`). -/
def toUnsigned (z : Int) : Nat := (z % (UINT_MOD : Int)).toNat

/-- Conversion of a size (`size_t`) to `int`: the low 32 bits, read as two's complement. -/
def toInt (n : Nat) : Int :=
  if n % UINT_MOD < 2147483648 then ((n % UINT_MOD : Nat) : Int)
  else ((n % UINT_MOD : Nat) : Int) - (UINT_MOD : Int)

/-! ## gc_details.h -/

/-- The struct `PtrDetails<T>`: one element of the garbage collection list. -/
structure PtrDetails where
  refcount : Nat
  mem_ptr : Nat
  is_array : Bool
  array_size : Nat
deriving DecidableEq

/-! ## gc_pointer.h -/

/-- The non-static data members of `Pointer<T, size>`. -/
structure Pointer where
  addr_ : Nat
  is_array_ : Bool
  array_size_ : Nat
deriving DecidableEq

namespace Pointer

/-- The `for` loop of `Collect` (lines 130-136): walk `p` from `begin()`; records with
`refcount > 0` are skipped; the first other record is erased and the loop is left.
`none`: the loop ran to `p == end()`, nothing erased.  `some rc`: the list after the
erasure, with `p != end()`. -/
def Collect.scan : List PtrDetails → Option (List PtrDetails)
  | [] => none
  | p :: rest =>
    if p.refcount > 0 then (Collect.scan rest).map (fun rest' => p :: rest')
    else some rest

/-- The `do ... while (p != ref_container_.end())` loop of `Collect`, at most `n` passes. -/
def Collect.loop : Nat → List PtrDetails → List PtrDetails
  | 0, ref_container_ => ref_container_
  | n + 1, ref_container_ =>
    match Collect.scan ref_container_ with
    | none => ref_container_
    | some rc => Collect.loop n rc

/-- Source `Pointer::Collect()` for an element type whose destructor destroys no handle of
this instantiation (`Pointer.Collect_del` is the general form): the returned flag `freed`
and the list afterwards.  `freed` is
initialised to `false` and never assigned.  Every pass but the last erases a record, so
`length + 1` passes are enough for the loop to leave by its own condition
(`Collect.loop_exits`). -/
def Collect (ref_container_ : List PtrDetails) : Bool × List PtrDetails :=
  let freed := false
  (freed, Collect.loop (ref_container_.length + 1) ref_container_)

/-- Source `Pointer::RefContainerSize()`: `ref_container_.size()` returned as `int`. -/
def RefContainerSize (ref_container_ : List PtrDetails) : Int :=
  toInt ref_container_.length

/-- Source `Pointer::Shutdown()`. -/
def Shutdown (ref_container_ : List PtrDetails) : List PtrDetails :=
  if RefContainerSize ref_container_ = 0 then ref_container_
  else (Collect (ref_container_.map (fun p => { p with refcount := 0 }))).2

/-- Source `Pointer::FindPtrInfo(ptr)`: position of the first record with `mem_ptr == ptr`,
`none` for `end()`. -/
def FindPtrInfo : List PtrDetails → Nat → Option Nat
  | [], _ => none
  | p :: rest, ptr =>
    if p.mem_ptr = ptr then some 0 else (FindPtrInfo rest ptr).map (fun i => i + 1)

/-- Source `Pointer::Pointer(T *t)`: the constructed handle and the list afterwards. -/
def ctor (size : Int) (ref_container_ : List PtrDetails) (t : Nat) :
    Pointer × List PtrDetails :=
  let addr_ := t
  let is_array_ := decide (size > 0)
  let array_size_ := toUnsigned size
  let self : Pointer := { addr_ := addr_, is_array_ := is_array_, array_size_ := array_size_ }
  match FindPtrInfo ref_container_ t with
  | some i =>
    match ref_container_[i]? with
    | some p =>
      (self, ref_container_.set i { p with refcount := (p.refcount + 1) % UINT_MOD })
    | none => (self, ref_container_)
  | none =>
    (self, ref_container_ ++
      [{ refcount := 1, mem_ptr := t, is_array := is_array_, array_size := array_size_ }])

/-- Source `Pointer::Pointer()`, delegating to `Pointer(nullptr)`. -/
def default_ctor (size : Int) (ref_container_ : List PtrDetails) : Pointer × List PtrDetails :=
  ctor size ref_container_ 0

/-- Source `Pointer::Pointer(const Pointer &ob)`, delegating to `Pointer(ob.addr_)`. -/
def copy_ctor (size : Int) (ref_container_ : List PtrDetails) (ob : Pointer) :
    Pointer × List PtrDetails :=
  ctor size ref_container_ ob.addr_

/-- Source `Pointer::~Pointer()` for an element type whose destructor destroys no handle of
this instantiation (`Pointer.dtor_del` is the general form): the list after the destructor
of `self` has run. -/
def dtor (ref_container_ : List PtrDetails) (self : Pointer) : List PtrDetails :=
  match FindPtrInfo ref_container_ self.addr_ with
  | some i =>
    let rc1 :=
      match ref_container_[i]? with
      | some p =>
        if p.refcount > 0 then ref_container_.set i { p with refcount := p.refcount - 1 }
        else ref_container_
      | none => ref_container_
    match rc1[i]? with
    | some p => if p.refcount = 0 then (Collect rc1).2 else rc1
    | none => rc1
  | none => ref_container_

end Pointer

/-- Source `swap(Pointer&, Pointer&)`: the three members are exchanged. -/
def swap (first second : Pointer) : Pointer × Pointer :=
  ({ addr_ := second.addr_, is_array_ := second.is_array_, array_size_ := second.array_size_ },
   { addr_ := first.addr_, is_array_ := first.is_array_, array_size_ := first.array_size_ })

namespace Pointer

/-- Source `T *Pointer::operator=(T *t)` for an element type whose destructor destroys no
handle of this instantiation (`Pointer.assign_raw_del` is the general form): the returned
address, `*this` afterwards and the list
afterwards.  The local `temp` is destroyed when the function returns. -/
def assign_raw (size : Int) (ref_container_ : List PtrDetails) (self : Pointer) (t : Nat) :
    Nat × Pointer × List PtrDetails :=
  let (temp, rc1) := ctor size ref_container_ t
  let (self', temp') := swap self temp
  (t, self', dtor rc1 temp')

/-- Source `Pointer &Pointer::operator=(Pointer ptr)` for an element type whose destructor
destroys no handle of this instantiation (`Pointer.assign_del` is the general form), called
as `a = b` with `b` an lvalue: the
parameter `ptr` is copy-constructed from `b` and destroyed when the call ends.  Returns
`*this` afterwards and the list afterwards (`b` itself is not touched). -/
def assign (size : Int) (ref_container_ : List PtrDetails) (self b : Pointer) :
    Pointer × List PtrDetails :=
  let (ptr, rc1) := copy_ctor size ref_container_ b
  let (self', ptr') := swap self ptr
  (self', dtor rc1 ptr')

end Pointer

/-! ## gc_pointer.h with the destructor of the element type

`delete p->mem_ptr` and `delete[] p->mem_ptr` in `Collect` run the destructor of `T`.  When
`T` has members of type `Pointer<T, size>` (a list node with a `next` handle), that destructor
runs `~Pointer` on each of them, on the same `ref_container_`, from inside `Collect`.
`owned a` lists the handles of this instantiation that are destroyed when the object (or
array) at address `a` is deleted, in the order of their destruction; it is `[]` when `T` has
no such member.  The functions of this section follow the source through these nested
calls.  They take the number `n` of nested calls and loop passes allowed and return `none`
when it is used up; `Pointer.fuel_le` shows that a result, once reached, stays the same for
every larger `n`.  `Pointer.Collect`, `Pointer.dtor`, `Pointer.assign_raw` and
`Pointer.assign` above are these functions for an element type that owns no handle
(`Pointer.Collect_del_no_owned`, `Pointer.dtor_del_no_owned`). -/

namespace Pointer

/-- The `for` loop of `Collect` (lines 130-136) up to the erasure: the record erased, whose
`is_array` and `mem_ptr` the `delete` that follows reads, and the list after the erasure;
`none` when the loop ran to `p == end()`. -/
def Collect_del.scan : List PtrDetails → Option (PtrDetails × List PtrDetails)
  | [] => none
  | p :: rest =>
    if p.refcount > 0 then (Collect_del.scan rest).map (fun r => (r.1, p :: r.2))
    else some (p, rest)

mutual
/-- The `do ... while` loop of `Collect` with its `delete`: after the erasure of `p` the
object at `p.mem_ptr` is deleted (`delete[]` or `delete`, both run the destructors), then
the loop scans again. -/
def Collect_del.loop (owned : Nat → List Pointer) :
    Nat → List PtrDetails → Option (List PtrDetails)
  | 0, _ => none
  | n + 1, ref_container_ =>
    match Collect_del.scan ref_container_ with
    | none => some ref_container_
    | some (p, rc) =>
      match delete_obj owned n (owned p.mem_ptr) rc with
      | some rc' => Collect_del.loop owned n rc'
      | none => none
/-- The destructor of `T` run by `delete`: `~Pointer` on each handle the object owns. -/
def delete_obj (owned : Nat → List Pointer) :
    Nat → List Pointer → List PtrDetails → Option (List PtrDetails)
  | _, [], rc => some rc
  | 0, _ :: _, _ => none
  | n + 1, h :: hs, rc =>
    match dtor_del owned n rc h with
    | some rc' => delete_obj owned n hs rc'
    | none => none
/-- Source `Pointer::~Pointer()`, with the `delete` calls of the `Collect` it runs. -/
def dtor_del (owned : Nat → List Pointer) :
    Nat → List PtrDetails → Pointer → Option (List PtrDetails)
  | 0, _, _ => none
  | n + 1, ref_container_, self =>
    match FindPtrInfo ref_container_ self.addr_ with
    | some i =>
      let rc1 :=
        match ref_container_[i]? with
        | some p =>
          if p.refcount > 0 then ref_container_.set i { p with refcount := p.refcount - 1 }
          else ref_container_
        | none => ref_container_
      match rc1[i]? with
      | some p => if p.refcount = 0 then Collect_del.loop owned n rc1 else some rc1
      | none => some rc1
    | none => some ref_container_
end

/-- Source `Pointer::Collect()` with its `delete` calls: the returned flag `freed` (never
assigned) and the list afterwards. -/
def Collect_del (owned : Nat → List Pointer) (n : Nat) (ref_container_ : List PtrDetails) :
    Option (Bool × List PtrDetails) :=
  let freed := false
  (Collect_del.loop owned n ref_container_).map (fun rc => (freed, rc))

/-- Source `T *Pointer::operator=(T *t)`, with the `delete` calls the destruction of `temp`
can run. -/
def assign_raw_del (size : Int) (owned : Nat → List Pointer) (n : Nat)
    (ref_container_ : List PtrDetails) (self : Pointer) (t : Nat) :
    Option (Nat × Pointer × List PtrDetails) :=
  let (temp, rc1) := ctor size ref_container_ t
  let (self', temp') := swap self temp
  (dtor_del owned n rc1 temp').map (fun rc2 => (t, self', rc2))

/-- Source `Pointer &Pointer::operator=(Pointer ptr)` called as `a = b`, with the `delete`
calls the destruction of the parameter can run. -/
def assign_del (size : Int) (owned : Nat → List Pointer) (n : Nat)
    (ref_container_ : List PtrDetails) (self b : Pointer) :
    Option (Pointer × List PtrDetails) :=
  let (ptr, rc1) := copy_ctor size ref_container_ b
  let (self', ptr') := swap self ptr
  (dtor_del owned n rc1 ptr').map (fun rc2 => (self', rc2))

end Pointer

/-! ## gc_iterator.h -/

/-- Conversion of a pointer difference (`ptrdiff_t`) to `int`: the low 32 bits, read as
two's complement. -/
def truncInt (z : Int) : Int := toInt (toUnsigned z)

/-- The class `OutOfRangeExc`. -/
inductive OutOfRangeExc where
  | mk
deriving DecidableEq

/-- The data members of `Iter<T>`.  Positions (`T*`) are integers counted in elements, so that
positions before `begin_` can be written. -/
structure Iter where
  ptr_ : Int
  begin_ : Int
  end_ : Int
  length_ : Nat
deriving DecidableEq

namespace Iter

/-- Source `Iter::Iter()`. -/
def default_ctor : Iter := { ptr_ := 0, begin_ := 0, end_ := 0, length_ := 0 }

/-- Source `Iter::Iter(T *p, T *first, T *last)`: `length_` is the `unsigned` initialised from
`last - first`. -/
def ctor (p first last : Int) : Iter :=
  { ptr_ := p, begin_ := first, end_ := last, length_ := toUnsigned (last - first) }

/-- Source `Iter::size()`. -/
def size (self : Iter) : Nat := self.length_

/-- Source `Iter::operator*()`, reading the element from the memory `mem`. -/
def deref {α : Type} (mem : Int → α) (self : Iter) : Except OutOfRangeExc α :=
  if self.ptr_ ≥ self.end_ ∨ self.ptr_ < self.begin_ then Except.error OutOfRangeExc.mk
  else Except.ok (mem self.ptr_)

/-- Source `Iter::operator->()`. -/
def arrow (self : Iter) : Except OutOfRangeExc Int :=
  if self.ptr_ ≥ self.end_ ∨ self.ptr_ < self.begin_ then Except.error OutOfRangeExc.mk
  else Except.ok self.ptr_

/-- Source `Iter::operator++()` (prefix): the receiver afterwards and the returned copy. -/
def incr (self : Iter) : Iter × Iter :=
  let self' := { self with ptr_ := self.ptr_ + 1 }
  (self', self')

/-- Source `Iter::operator++(int)` (postfix): the receiver afterwards and the returned cursor. -/
def post_incr (self : Iter) : Iter × Iter :=
  let tmp := self.ptr_
  ({ self with ptr_ := self.ptr_ + 1 }, ctor tmp self.begin_ self.end_)

/-- Source `Iter::operator--()` (prefix): the receiver afterwards and the returned copy. -/
def decr (self : Iter) : Iter × Iter :=
  let self' := { self with ptr_ := self.ptr_ - 1 }
  (self', self')

/-- Source `Iter::operator--(int)` (postfix): the receiver afterwards and the returned cursor. -/
def post_decr (self : Iter) : Iter × Iter :=
  let tmp := self.ptr_
  ({ self with ptr_ := self.ptr_ - 1 }, ctor tmp self.begin_ self.end_)

/-- Source `Iter::operator[](int i)`: in `i >= length_` the `int` is converted to `unsigned`.
The element returned is `ptr_[i]`, the one at position `ptr_ + i`. -/
def index {α : Type} (mem : Int → α) (self : Iter) (i : Int) : Except OutOfRangeExc α :=
  if i < 0 ∨ toUnsigned i ≥ self.length_ then Except.error OutOfRangeExc.mk
  else Except.ok (mem (self.ptr_ + i))

/-- Source `Iter::operator-(int n)`: the receiver afterwards and the returned copy. -/
def sub (self : Iter) (n : Int) : Iter × Iter :=
  let self' := { self with ptr_ := self.ptr_ - n }
  (self', self')

/-- Source `Iter::operator+(int n)`: the receiver afterwards and the returned copy. -/
def add (self : Iter) (n : Int) : Iter × Iter :=
  let self' := { self with ptr_ := self.ptr_ + n }
  (self', self')

/-- Source `Iter::operator-(Iter<T> &itr2)`: the pointer difference returned as `int`. -/
def diff (self itr2 : Iter) : Int := truncInt (self.ptr_ - itr2.ptr_)

end Iter

/-- Source `Pointer::begin()`.  The conditional expression has type `unsigned` and initialises
the `int` `_size`. -/
def Pointer.begin (self : Pointer) : Iter :=
  let _size : Int := toInt (if self.is_array_ then self.array_size_ else 1)
  Iter.ctor (self.addr_ : Int) (self.addr_ : Int) ((self.addr_ : Int) + _size)

/-- Source `Pointer::end()`. -/
def Pointer.end_ (self : Pointer) : Iter :=
  let _size : Int := toInt (if self.is_array_ then self.array_size_ else 1)
  Iter.ctor ((self.addr_ : Int) + _size) (self.addr_ : Int) ((self.addr_ : Int) + _size)

/-- The prefix `++` applied `k` times to a cursor: the cursor afterwards. -/
def advance : Nat → Iter → Iter
  | 0, it => it
  | k + 1, it => advance k (Iter.incr it).1

/-! ## Sequences of handle operations over one address -/

/-- Reference count recorded for address `a`: the `refcount` of the record `FindPtrInfo`
finds, taken as 0 when `a` has no record. -/
def refcountOf (rc : List PtrDetails) (a : Nat) : Nat :=
  match rc.find? (fun p => decide (p.mem_ptr = a)) with
  | some p => p.refcount
  | none => 0

/-- The handle of `Pointer<T, size>` over address `a` as its constructor sets it up. -/
def handleOver (size : Int) (a : Nat) : Pointer :=
  { addr_ := a, is_array_ := decide (size > 0), array_size_ := toUnsigned size }

/-- One event in the life of the handles over a fixed address. -/
inductive HandleOp where
  | construct
  | copy
  | destruct
deriving DecidableEq

/-- Effect on the registry of one event over address `a`: `Pointer(a)`,
`Pointer(const Pointer&)` of a handle over `a`, or `~Pointer()` of a handle over `a`. -/
def applyOp (size : Int) (a : Nat) (rc : List PtrDetails) : HandleOp → List PtrDetails
  | HandleOp.construct => (Pointer.ctor size rc a).2
  | HandleOp.copy => (Pointer.copy_ctor size rc (handleOver size a)).2
  | HandleOp.destruct => Pointer.dtor rc (handleOver size a)

/-- The registry after a sequence of events over address `a`. -/
def runOps (size : Int) (a : Nat) (rc : List PtrDetails) (ops : List HandleOp) :
    List PtrDetails :=
  ops.foldl (applyOp size a) rc

/-- Number of constructions and copies in a sequence. -/
def numAdopt (ops : List HandleOp) : Nat :=
  ops.countP (fun op => decide (op ≠ HandleOp.destruct))

/-- Number of destructions in a sequence. -/
def numDestruct (ops : List HandleOp) : Nat :=
  ops.countP (fun op => decide (op = HandleOp.destruct))

/-- The count the sequence leads to when it is clamped at 0 after every event (and wraps
like an `unsigned`), starting from `x`. -/
def runningCount (x : Nat) (ops : List HandleOp) : Nat :=
  ops.foldl (fun c op => if op = HandleOp.destruct then c - 1 else (c + 1) % UINT_MOD) x

/-- With `live` handles alive, every destruction in the sequence destroys a handle that is
alive at that point. -/
def destroysLiveOnly (live : Nat) : List HandleOp → Bool
  | [] => true
  | HandleOp.destruct :: ops => decide (0 < live) && destroysLiveOnly (live - 1) ops
  | _ :: ops => destroysLiveOnly (live + 1) ops

/-- The registry holds at most one record for `a`, and its reference count is `x`
(`x = 0` when there is none). -/
def tracks (rc : List PtrDetails) (a x : Nat) : Prop :=
  (x = 0 ∧ ∀ p ∈ rc, p.mem_ptr ≠ a) ∨
  ∃ pre p post, rc = pre ++ p :: post ∧ p.mem_ptr = a ∧ p.refcount = x
    ∧ (∀ q ∈ pre, q.mem_ptr ≠ a) ∧ (∀ q ∈ post, q.mem_ptr ≠ a)

/-! ## Programs over the handles of one instantiation -/

/-- State of a program using `Pointer<T, size>`: the registry and the handles that are
alive, in the order of their creation. -/
structure Sys where
  ref_container_ : List PtrDetails
  live : List Pointer
deriving DecidableEq

/-- The handle operations of a program; handles are named by their position in `live`. -/
inductive Cmd where
  | construct (t : Nat)
  | copy (i : Nat)
  | assign_raw (i : Nat) (t : Nat)
  | assign (i j : Nat)
  | destroy (i : Nat)
deriving DecidableEq

/-- One handle operation; `none` when it names a handle that is not alive. -/
def exec (size : Int) (s : Sys) : Cmd → Option Sys
  | Cmd.construct t =>
    some { ref_container_ := (Pointer.ctor size s.ref_container_ t).2,
           live := s.live ++ [(Pointer.ctor size s.ref_container_ t).1] }
  | Cmd.copy i =>
    match s.live[i]? with
    | some ob =>
      some { ref_container_ := (Pointer.copy_ctor size s.ref_container_ ob).2,
             live := s.live ++ [(Pointer.copy_ctor size s.ref_container_ ob).1] }
    | none => none
  | Cmd.assign_raw i t =>
    match s.live[i]? with
    | some self =>
      some { ref_container_ := (Pointer.assign_raw size s.ref_container_ self t).2.2,
             live := s.live.set i (Pointer.assign_raw size s.ref_container_ self t).2.1 }
    | none => none
  | Cmd.assign i j =>
    match s.live[i]?, s.live[j]? with
    | some self, some b =>
      some { ref_container_ := (Pointer.assign size s.ref_container_ self b).2,
             live := s.live.set i (Pointer.assign size s.ref_container_ self b).1 }
    | _, _ => none
  | Cmd.destroy i =>
    match s.live[i]? with
    | some self =>
      some { ref_container_ := Pointer.dtor s.ref_container_ self,
             live := s.live.eraseIdx i }
    | none => none

/-- A sequence of handle operations, each issued while fewer than `bound` handles are
alive; `none` when an operation names a dead handle or is issued with `bound` or more
handles alive. -/
def execAllBelow (size : Int) (bound : Nat) : Sys → List Cmd → Option Sys
  | s, [] => some s
  | s, c :: cs =>
    if s.live.length < bound then
      match exec size s c with
      | some s' => execAllBelow size bound s' cs
      | none => none
    else none

/-- A sequence of handle operations. -/
def execAll (size : Int) : Sys → List Cmd → Option Sys
  | s, [] => some s
  | s, c :: cs =>
    match exec size s c with
    | some s' => execAll size s' cs
    | none => none

/-- The state before the first handle is created: empty registry, no live handle. -/
def Sys.init : Sys := { ref_container_ := [], live := [] }

/-- States a program can reach from `Sys.init`. -/
def Reachable (size : Int) (s : Sys) : Prop :=
  ∃ cmds, execAll size Sys.init cmds = some s

/-- States a program can reach from `Sys.init` issuing every operation while fewer than
`bound` handles are alive. -/
def ReachableBelow (size : Int) (bound : Nat) (s : Sys) : Prop :=
  ∃ cmds, execAllBelow size bound Sys.init cmds = some s

/-- Number of live handles holding address `a`. -/
def liveCount (live : List Pointer) (a : Nat) : Nat :=
  live.countP (fun h => decide (h.addr_ = a))

/-- The records of the registry for address `a`. -/
def recordsFor (rc : List PtrDetails) (a : Nat) : List PtrDetails :=
  rc.filter (fun p => decide (p.mem_ptr = a))

/-- Address `a` is held by `n` handles and the registry says so: no record when `n = 0`,
and otherwise exactly one record, with reference count `n`. -/
def consistent (rc : List PtrDetails) (a n : Nat) : Prop :=
  (n = 0 ∧ recordsFor rc a = []) ∨ (0 < n ∧ ∃ p, recordsFor rc a = [p] ∧ p.refcount = n)

/-- The registry agrees with the handle counts `f` at every address. -/
def agrees (rc : List PtrDetails) (f : Nat → Nat) : Prop :=
  ∀ a, consistent rc a (f a)

/-- The registry agrees with the live handles at every address, and every live handle
has the shape of the instantiation. -/
def Inv (size : Int) (s : Sys) : Prop :=
  agrees s.ref_container_ (liveCount s.live) ∧ ∀ h ∈ s.live, h = handleOver size h.addr_

/-- No two records of the registry have the same `mem_ptr`. -/
def uniqueAddrs (rc : List PtrDetails) : Prop :=
  (rc.map (fun p => p.mem_ptr)).Nodup

/-- The records `Collect` is expected to keep: the ones with a positive reference count. -/
def survivors (rc : List PtrDetails) : List PtrDetails :=
  rc.filter (fun p => decide (p.refcount > 0))

theorem Pointer.Collect.scan_eq_none {rc : List PtrDetails} :
    Pointer.Collect.scan rc = none ↔ ∀ p ∈ rc, 0 < p.refcount := by
  induction rc with
  | nil => simp [Pointer.Collect.scan]
  | cons p rest ih =>
    by_cases hp : 0 < p.refcount
    · simp [Pointer.Collect.scan, hp, ih]
    · simp [Pointer.Collect.scan, hp]

theorem Pointer.Collect.scan_eq_some {rc rc' : List PtrDetails}
    (h : Pointer.Collect.scan rc = some rc') :
    rc'.length + 1 = rc.length ∧ survivors rc' = survivors rc := by
  induction rc generalizing rc' with
  | nil => simp [Pointer.Collect.scan] at h
  | cons p rest ih =>
    by_cases hp : 0 < p.refcount
    · simp only [Pointer.Collect.scan, hp, if_true, gt_iff_lt] at h
      cases hs : Pointer.Collect.scan rest with
      | none => simp [hs] at h
      | some r =>
        simp only [hs, Option.map_some', Option.some.injEq] at h
        subst h
        obtain ⟨h1, h2⟩ := ih hs
        refine ⟨by simp [h1], ?_⟩
        simp only [survivors] at h2 ⊢
        simp [List.filter_cons, hp, h2]
    · simp only [Pointer.Collect.scan, hp, if_false, gt_iff_lt, Option.some.injEq] at h
      subst h
      exact ⟨rfl, by simp [survivors, List.filter_cons, hp]⟩

theorem survivors_eq_self {rc : List PtrDetails} (h : ∀ p ∈ rc, 0 < p.refcount) :
    survivors rc = rc := by
  simp only [survivors, List.filter_eq_self]
  intro p hp
  simpa using h p hp

theorem mem_survivors {rc : List PtrDetails} {p : PtrDetails} :
    p ∈ survivors rc ↔ p ∈ rc ∧ 0 < p.refcount := by
  simp [survivors, List.mem_filter]

/-- Once the pass budget exceeds the length of the list, the loop returns the survivors. -/
theorem Pointer.Collect.loop_eq_survivors (n : Nat) (rc : List PtrDetails)
    (h : rc.length < n) : Pointer.Collect.loop n rc = survivors rc := by
  induction n generalizing rc with
  | zero => omega
  | succ n ih =>
    cases hs : Pointer.Collect.scan rc with
    | none =>
      simp only [Pointer.Collect.loop, hs]
      exact (survivors_eq_self (Pointer.Collect.scan_eq_none.mp hs)).symm
    | some rc' =>
      simp only [Pointer.Collect.loop, hs]
      obtain ⟨h1, h2⟩ := Pointer.Collect.scan_eq_some hs
      rw [ih rc' (by omega), h2]

/-- The `do`-`while` loop of `Collect` is left through its own condition: the pass that
follows the passes counted in `Collect` finds `p == end()`. -/
theorem Pointer.Collect.loop_exits (rc : List PtrDetails) :
    Pointer.Collect.scan (Pointer.Collect.loop (rc.length + 1) rc) = none := by
  rw [Pointer.Collect.loop_eq_survivors _ _ (Nat.lt_succ_self _), Pointer.Collect.scan_eq_none]
  intro p hp
  exact (mem_survivors.mp hp).2

theorem Pointer.Collect_eq (rc : List PtrDetails) :
    Pointer.Collect rc = (false, survivors rc) := by
  simp only [Pointer.Collect, Pointer.Collect.loop_eq_survivors _ _ (Nat.lt_succ_self _)]

theorem survivors_idem (rc : List PtrDetails) : survivors (survivors rc) = survivors rc := by
  simp [survivors, List.filter_filter]

/-- C2 (the code at the failing input). On a registry holding one record of reference
count 0, `Collect()` releases and removes that record and still returns `false`. -/
theorem C2_Collect_returns_false_after_release :
    Pointer.Collect [{ refcount := 0, mem_ptr := 1, is_array := false, array_size := 0 }]
      = (false, []) := by
  decide

/-- C10. `Collect()` is idempotent: called again on the registry a first call left, it
returns `false` and leaves that registry as it is. -/
theorem C10_Collect_idempotent (rc : List PtrDetails) :
    Pointer.Collect (Pointer.Collect rc).2 = (false, (Pointer.Collect rc).2) := by
  simp only [Pointer.Collect_eq, survivors_idem]

/-! ## Shutdown -/

theorem survivors_map_zero (rc : List PtrDetails) :
    survivors (rc.map (fun p => { p with refcount := 0 })) = [] := by
  simp [survivors, List.filter_eq_nil_iff]

theorem Pointer.FindPtrInfo_eq_none {rc : List PtrDetails} {a : Nat} :
    Pointer.FindPtrInfo rc a = none ↔ ∀ p ∈ rc, p.mem_ptr ≠ a := by
  induction rc with
  | nil => simp [Pointer.FindPtrInfo]
  | cons p rest ih =>
    by_cases hp : p.mem_ptr = a
    · simp [Pointer.FindPtrInfo, hp]
    · simp [Pointer.FindPtrInfo, hp, ih]

theorem Pointer.FindPtrInfo_append_cons {pre post : List PtrDetails} {p : PtrDetails} {a : Nat}
    (hpre : ∀ q ∈ pre, q.mem_ptr ≠ a) (hp : p.mem_ptr = a) :
    Pointer.FindPtrInfo (pre ++ p :: post) a = some pre.length := by
  induction pre with
  | nil => simp [Pointer.FindPtrInfo, hp]
  | cons q pre ih =>
    have hq : q.mem_ptr ≠ a := hpre q (List.mem_cons_self _ _)
    have ih' := ih (fun x hx => hpre x (List.mem_cons_of_mem _ hx))
    simp [Pointer.FindPtrInfo, hq, ih']

theorem Pointer.FindPtrInfo_eq_some {rc : List PtrDetails} {a i : Nat}
    (h : Pointer.FindPtrInfo rc a = some i) :
    ∃ pre p post, rc = pre ++ p :: post ∧ pre.length = i ∧ p.mem_ptr = a
      ∧ ∀ q ∈ pre, q.mem_ptr ≠ a := by
  induction rc generalizing i with
  | nil => simp [Pointer.FindPtrInfo] at h
  | cons q rest ih =>
    by_cases hq : q.mem_ptr = a
    · simp only [Pointer.FindPtrInfo, hq, if_true, Option.some.injEq] at h
      exact ⟨[], q, rest, rfl, by simpa using h, hq, by simp⟩
    · simp only [Pointer.FindPtrInfo, hq, if_false] at h
      cases hf : Pointer.FindPtrInfo rest a with
      | none => simp [hf] at h
      | some j =>
        simp only [hf, Option.map_some', Option.some.injEq] at h
        obtain ⟨pre, p, post, hrc, hlen, hp, hpre⟩ := ih hf
        refine ⟨q :: pre, p, post, by simp [hrc], by simp [hlen, h], hp, ?_⟩
        intro x hx
        rcases List.mem_cons.mp hx with hx | hx
        · exact hx ▸ hq
        · exact hpre x hx

/-- Every registry either has no record for `a` or splits at the first record for `a`. -/
theorem registry_split (rc : List PtrDetails) (a : Nat) :
    (∀ p ∈ rc, p.mem_ptr ≠ a) ∨
    ∃ pre p post, rc = pre ++ p :: post ∧ p.mem_ptr = a ∧ ∀ q ∈ pre, q.mem_ptr ≠ a := by
  cases h : Pointer.FindPtrInfo rc a with
  | none => exact Or.inl (Pointer.FindPtrInfo_eq_none.mp h)
  | some i =>
    obtain ⟨pre, p, post, hrc, _, hp, hpre⟩ := Pointer.FindPtrInfo_eq_some h
    exact Or.inr ⟨pre, p, post, hrc, hp, hpre⟩

theorem getElem?_split (pre post : List PtrDetails) (p : PtrDetails) :
    (pre ++ p :: post)[pre.length]? = some p := by
  rw [List.getElem?_append_right (Nat.le_refl _)]
  simp

theorem set_split (pre post : List PtrDetails) (p q : PtrDetails) :
    (pre ++ p :: post).set pre.length q = pre ++ q :: post := by
  simp

theorem Pointer.ctor_found (size : Int) {pre post : List PtrDetails} {p : PtrDetails} {a : Nat}
    (hpre : ∀ q ∈ pre, q.mem_ptr ≠ a) (hp : p.mem_ptr = a) :
    Pointer.ctor size (pre ++ p :: post) a =
      ({ addr_ := a, is_array_ := decide (size > 0), array_size_ := toUnsigned size },
       pre ++ { p with refcount := (p.refcount + 1) % UINT_MOD } :: post) := by
  simp only [Pointer.ctor, Pointer.FindPtrInfo_append_cons hpre hp, getElem?_split, set_split]

theorem Pointer.ctor_fresh (size : Int) {rc : List PtrDetails} {a : Nat}
    (h : ∀ p ∈ rc, p.mem_ptr ≠ a) :
    Pointer.ctor size rc a =
      ({ addr_ := a, is_array_ := decide (size > 0), array_size_ := toUnsigned size },
       rc ++ [{ refcount := 1, mem_ptr := a, is_array := decide (size > 0),
                array_size := toUnsigned size }]) := by
  simp [Pointer.ctor, Pointer.FindPtrInfo_eq_none.mpr h]

theorem Pointer.dtor_absent {rc : List PtrDetails} {self : Pointer}
    (h : ∀ p ∈ rc, p.mem_ptr ≠ self.addr_) : Pointer.dtor rc self = rc := by
  simp [Pointer.dtor, Pointer.FindPtrInfo_eq_none.mpr h]

theorem Pointer.dtor_found {pre post : List PtrDetails} {p : PtrDetails} {self : Pointer}
    (hpre : ∀ q ∈ pre, q.mem_ptr ≠ self.addr_) (hp : p.mem_ptr = self.addr_) :
    Pointer.dtor (pre ++ p :: post) self =
      if p.refcount ≤ 1 then survivors pre ++ survivors post
      else pre ++ { p with refcount := p.refcount - 1 } :: post := by
  simp only [Pointer.dtor, Pointer.FindPtrInfo_append_cons hpre hp, getElem?_split]
  by_cases h0 : p.refcount = 0
  · have hnot : ¬ p.refcount > 0 := by omega
    simp only [hnot, if_false, getElem?_split]
    simp [Pointer.Collect_eq, survivors, List.filter_cons, h0]
  · have hpos : p.refcount > 0 := Nat.pos_of_ne_zero h0
    simp only [hpos, if_true, set_split, getElem?_split]
    by_cases h1 : p.refcount = 1
    · simp [h1, Pointer.Collect_eq, survivors, List.filter_cons]
    · have h2 : ¬ p.refcount ≤ 1 := by omega
      have h3 : ¬ p.refcount - 1 = 0 := by omega
      simp [h2, h3]

theorem toUnsigned_of_nonneg {size : Int} (h0 : 0 ≤ size) (h1 : size < (UINT_MOD : Int)) :
    ((toUnsigned size : Nat) : Int) = size := by
  unfold toUnsigned
  rw [Int.emod_eq_of_lt h0 h1, Int.toNat_of_nonneg h0]

/-! ## Postconditions of the single operations -/

/-- C5 (counterexample). For `Pointer<T, -1>` constructed from address 1 on a registry whose
record for address 1 has the largest `unsigned` reference count: the handle gets
`array_size_ = 4294967295`, not `-1`, and the record's reference count becomes 0, not
4294967296. -/
theorem C5_counterexample_construct_wraps :
    ((Pointer.ctor (-1) [⟨4294967295, 1, false, 0⟩] 1).1.array_size_ : Int) ≠ -1
    ∧ (Pointer.ctor (-1) [⟨4294967295, 1, false, 0⟩] 1).2 ≠ [⟨4294967295 + 1, 1, false, 0⟩]
    ∧ (Pointer.ctor (-1) [⟨4294967295, 1, false, 0⟩] 1)
        = (⟨1, false, 4294967295⟩, [⟨0, 1, false, 0⟩]) := by
  decide

/-- C5 (amended). Constructing a `Pointer<T, size>` from an address `t` (null included) on a
registry `R` yields the handle with address `t`, `is_array = (size > 0)` and `array_size` =
`size` converted to `unsigned` (which is `size` itself when `0 <= size < 2^32`).  If `R`
has a record for `t`, the first such record has its reference count incremented by 1
modulo 2^32 (by exactly 1 when it is below `2^32 - 1`) and nothing else changes; otherwise
the record `{t, 1, size > 0, unsigned(size)}` is appended at the end of `R` and the
existing records are unchanged. -/
theorem C5_construct_postcondition (size : Int) (R : List PtrDetails) (t : Nat) :
    (Pointer.ctor size R t).1
        = { addr_ := t, is_array_ := decide (size > 0), array_size_ := toUnsigned size }
    ∧ (0 ≤ size → size < (UINT_MOD : Int) →
        (((Pointer.ctor size R t).1.array_size_ : Nat) : Int) = size)
    ∧ (∀ pre p post, R = pre ++ p :: post → (∀ q ∈ pre, q.mem_ptr ≠ t) → p.mem_ptr = t →
        (Pointer.ctor size R t).2
            = pre ++ { p with refcount := (p.refcount + 1) % UINT_MOD } :: post
        ∧ (p.refcount + 1 < UINT_MOD →
            (Pointer.ctor size R t).2 = pre ++ { p with refcount := p.refcount + 1 } :: post))
    ∧ ((∀ q ∈ R, q.mem_ptr ≠ t) →
        (Pointer.ctor size R t).2
          = R ++ [{ refcount := 1, mem_ptr := t, is_array := decide (size > 0),
                    array_size := toUnsigned size }]) := by
  have hhandle : (Pointer.ctor size R t).1
      = { addr_ := t, is_array_ := decide (size > 0), array_size_ := toUnsigned size } := by
    rcases registry_split R t with h | ⟨pre, p, post, hR, hp, hpre⟩
    · rw [Pointer.ctor_fresh size h]
    · rw [hR, Pointer.ctor_found size hpre hp]
  refine ⟨hhandle, ?_, ?_, ?_⟩
  · intro h0 h1
    rw [hhandle]
    exact toUnsigned_of_nonneg h0 h1
  · intro pre p post hR hpre hp
    subst hR
    rw [Pointer.ctor_found size hpre hp]
    refine ⟨rfl, fun hlt => ?_⟩
    rw [Nat.mod_eq_of_lt hlt]
  · intro h
    rw [Pointer.ctor_fresh size h]

/-- C5 (witness). `Pointer<T, 3>` constructed from address 7, once on a registry holding a
record for 7 with reference count 2 and once on a registry without one. -/
theorem C5_construct_postcondition_witness :
    (Pointer.ctor 3 [⟨1, 5, true, 3⟩, ⟨2, 7, true, 3⟩, ⟨1, 9, true, 3⟩] 7).2
        = [⟨1, 5, true, 3⟩, ⟨3, 7, true, 3⟩, ⟨1, 9, true, 3⟩]
    ∧ (Pointer.ctor 3 [⟨1, 5, true, 3⟩] 7).2 = [⟨1, 5, true, 3⟩, ⟨1, 7, true, 3⟩]
    ∧ (((Pointer.ctor 3 [⟨1, 5, true, 3⟩] 7).1.array_size_ : Nat) : Int) = 3 :=
  ⟨((C5_construct_postcondition 3 [⟨1, 5, true, 3⟩, ⟨2, 7, true, 3⟩, ⟨1, 9, true, 3⟩] 7).2.2.1
      [⟨1, 5, true, 3⟩] ⟨2, 7, true, 3⟩ [⟨1, 9, true, 3⟩] rfl (by decide) rfl).2 (by decide),
   (C5_construct_postcondition 3 [⟨1, 5, true, 3⟩] 7).2.2.2 (by decide),
   (C5_construct_postcondition 3 [⟨1, 5, true, 3⟩] 7).2.1 (by decide) (by decide)⟩

/-! ## Reference count of one address along a sequence of events -/

theorem refcountOf_absent {rc : List PtrDetails} {a : Nat} (h : ∀ p ∈ rc, p.mem_ptr ≠ a) :
    refcountOf rc a = 0 := by
  have : rc.find? (fun p => decide (p.mem_ptr = a)) = none := by
    rw [List.find?_eq_none]
    intro p hp
    simpa using h p hp
  simp [refcountOf, this]

theorem refcountOf_split {pre post : List PtrDetails} {p : PtrDetails} {a : Nat}
    (hpre : ∀ q ∈ pre, q.mem_ptr ≠ a) (hp : p.mem_ptr = a) :
    refcountOf (pre ++ p :: post) a = p.refcount := by
  have h1 : pre.find? (fun p => decide (p.mem_ptr = a)) = none := by
    rw [List.find?_eq_none]
    intro q hq
    simpa using hpre q hq
  simp [refcountOf, List.find?_append, h1, List.find?_cons, hp]

theorem refcountOf_of_tracks {rc : List PtrDetails} {a x : Nat} (h : tracks rc a x) :
    refcountOf rc a = x := by
  rcases h with ⟨hx, habs⟩ | ⟨pre, p, post, hrc, hp, hpx, hpre, _⟩
  · rw [refcountOf_absent habs, hx]
  · rw [hrc, refcountOf_split hpre hp, hpx]

theorem tracks_adopt (size : Int) {rc : List PtrDetails} {a x : Nat} (h : tracks rc a x) :
    tracks (Pointer.ctor size rc a).2 a ((x + 1) % UINT_MOD) := by
  rcases h with ⟨hx, habs⟩ | ⟨pre, p, post, hrc, hp, hpx, hpre, hpost⟩
  · rw [Pointer.ctor_fresh size habs, hx]
    exact Or.inr ⟨rc, ⟨1, a, decide (size > 0), toUnsigned size⟩, [], rfl, rfl,
      by norm_num [UINT_MOD], habs, by simp⟩
  · rw [hrc, Pointer.ctor_found size hpre hp]
    exact Or.inr ⟨pre, _, post, rfl, hp, by simp [hpx], hpre, hpost⟩

theorem tracks_destruct {rc : List PtrDetails} {a x : Nat} {self : Pointer}
    (hs : self.addr_ = a) (h : tracks rc a x) :
    tracks (Pointer.dtor rc self) a (x - 1) := by
  subst hs
  rcases h with ⟨hx, habs⟩ | ⟨pre, p, post, hrc, hp, hpx, hpre, hpost⟩
  · rw [Pointer.dtor_absent habs, hx]
    exact Or.inl ⟨rfl, habs⟩
  · rw [hrc, Pointer.dtor_found hpre hp]
    by_cases hle : p.refcount ≤ 1
    · rw [if_pos hle]
      refine Or.inl ⟨by omega, ?_⟩
      intro q hq
      rcases List.mem_append.mp hq with hq | hq
      · exact hpre q (mem_survivors.mp hq).1
      · exact hpost q (mem_survivors.mp hq).1
    · rw [if_neg hle]
      exact Or.inr ⟨pre, _, post, rfl, hp, by simp [hpx], hpre, hpost⟩

theorem tracks_applyOp (size : Int) {rc : List PtrDetails} {a x : Nat} (op : HandleOp)
    (h : tracks rc a x) :
    tracks (applyOp size a rc op) a
      (if op = HandleOp.destruct then x - 1 else (x + 1) % UINT_MOD) := by
  cases op with
  | construct => simpa [applyOp] using tracks_adopt size h
  | copy => simpa [applyOp, Pointer.copy_ctor, handleOver] using tracks_adopt size h
  | destruct =>
    simpa [applyOp] using @tracks_destruct rc a x (handleOver size a) rfl h

theorem tracks_runOps (size : Int) (a : Nat) (ops : List HandleOp) :
    ∀ (rc : List PtrDetails) (x : Nat), tracks rc a x →
      tracks (runOps size a rc ops) a (runningCount x ops) := by
  induction ops with
  | nil => intro rc x h; simpa [runOps, runningCount] using h
  | cons op ops ih =>
    intro rc x h
    have := ih _ _ (tracks_applyOp size op h)
    simpa [runOps, runningCount] using this

theorem runningCount_of_destroysLiveOnly (ops : List HandleOp) :
    ∀ x : Nat, destroysLiveOnly x ops = true → x + numAdopt ops < UINT_MOD →
      runningCount x ops = x + numAdopt ops - numDestruct ops
        ∧ numDestruct ops ≤ x + numAdopt ops := by
  induction ops with
  | nil => intro x _ _; simp [runningCount, numAdopt, numDestruct]
  | cons op ops ih =>
    intro x hlive hb
    cases op with
    | destruct =>
      simp only [destroysLiveOnly, Bool.and_eq_true, decide_eq_true_eq] at hlive
      have hA : numAdopt (HandleOp.destruct :: ops) = numAdopt ops := by
        simp [numAdopt, List.countP_cons]
      have hD : numDestruct (HandleOp.destruct :: ops) = numDestruct ops + 1 := by
        simp [numDestruct, List.countP_cons]
      rw [hA] at hb
      obtain ⟨h1, h2⟩ := ih (x - 1) hlive.2 (by omega)
      have hr : runningCount x (HandleOp.destruct :: ops) = runningCount (x - 1) ops := by
        simp [runningCount]
      rw [hr, hA, hD, h1]
      omega
    | construct =>
      simp only [destroysLiveOnly] at hlive
      have hA : numAdopt (HandleOp.construct :: ops) = numAdopt ops + 1 := by
        simp [numAdopt, List.countP_cons]
      have hD : numDestruct (HandleOp.construct :: ops) = numDestruct ops := by
        simp [numDestruct, List.countP_cons]
      rw [hA] at hb
      obtain ⟨h1, h2⟩ := ih (x + 1) hlive (by omega)
      have hr : runningCount x (HandleOp.construct :: ops) = runningCount (x + 1) ops := by
        have hm : (x + 1) % UINT_MOD = x + 1 := Nat.mod_eq_of_lt (by omega)
        simp [runningCount, hm]
      rw [hr, hA, hD, h1]
      omega
    | copy =>
      simp only [destroysLiveOnly] at hlive
      have hA : numAdopt (HandleOp.copy :: ops) = numAdopt ops + 1 := by
        simp [numAdopt, List.countP_cons]
      have hD : numDestruct (HandleOp.copy :: ops) = numDestruct ops := by
        simp [numDestruct, List.countP_cons]
      rw [hA] at hb
      obtain ⟨h1, h2⟩ := ih (x + 1) hlive (by omega)
      have hr : runningCount x (HandleOp.copy :: ops) = runningCount (x + 1) ops := by
        have hm : (x + 1) % UINT_MOD = x + 1 := Nat.mod_eq_of_lt (by omega)
        simp [runningCount, hm]
      rw [hr, hA, hD, h1]
      omega

theorem runningCount_replicate_construct (n : Nat) :
    ∀ x : Nat, x < UINT_MOD →
      runningCount x (List.replicate n HandleOp.construct) = (x + n) % UINT_MOD := by
  induction n with
  | zero => intro x hx; simp [runningCount, Nat.mod_eq_of_lt hx]
  | succ n ih =>
    intro x hx
    have hlt : (x + 1) % UINT_MOD < UINT_MOD := Nat.mod_lt _ (by decide)
    have hstep : runningCount x (List.replicate (n + 1) HandleOp.construct)
        = runningCount ((x + 1) % UINT_MOD) (List.replicate n HandleOp.construct) := by
      simp [runningCount, List.replicate_succ]
    rw [hstep, ih _ hlt]
    simp only [UINT_MOD]
    omega

/-- C4 (counterexample). (1) Construct, destroy, destroy, construct over address 1 from the
empty registry: the destructor does nothing on the second destruction (no record), so the
last construction leaves reference count 1, while (2 constructions) - (2 destructions)
clamped at 0 is 0.  (2) 2^32 constructions over address 1 and no destruction: the
reference count has wrapped to 0, while (constructions) - (destructions) is 2^32. -/
theorem C4_counterexample_clamp_and_wrap :
    (refcountOf (runOps 0 1 []
        [HandleOp.construct, HandleOp.destruct, HandleOp.destruct, HandleOp.construct]) 1 = 1
      ∧ max (0 : Int)
          (((numAdopt [HandleOp.construct, HandleOp.destruct, HandleOp.destruct,
              HandleOp.construct] : Nat) : Int)
            - ((numDestruct [HandleOp.construct, HandleOp.destruct, HandleOp.destruct,
                HandleOp.construct] : Nat) : Int)) = 0)
    ∧ (refcountOf (runOps 0 1 [] (List.replicate 4294967296 HandleOp.construct)) 1 = 0
      ∧ max (0 : Int)
          (((numAdopt (List.replicate 4294967296 HandleOp.construct) : Nat) : Int)
            - ((numDestruct (List.replicate 4294967296 HandleOp.construct) : Nat) : Int))
          = 4294967296) := by
  refine ⟨by decide, ?_, ?_⟩
  · rw [refcountOf_of_tracks (tracks_runOps 0 1 _ [] 0 (Or.inl ⟨rfl, by simp⟩)),
      runningCount_replicate_construct _ 0 (by decide)]
    decide
  · have hA : numAdopt (List.replicate 4294967296 HandleOp.construct) = 4294967296 := by
      rw [numAdopt, List.countP_replicate]; rfl
    have hD : numDestruct (List.replicate 4294967296 HandleOp.construct) = 0 := by
      rw [numDestruct, List.countP_replicate]; rfl
    rw [hA, hD]
    decide

/-- C4 (amended). For every sequence of constructions, copies and destructions of handles
over one address `a`, starting from a registry with no record for `a`, the reference count
recorded for `a` afterwards (0 when `a` has no record) is the running count that every
construction or copy raises by 1 (modulo 2^32) and every destruction lowers by 1 unless it
is 0.  When every destruction in the sequence destroys a handle alive at that point and
the sequence has fewer than 2^32 constructions and copies, this is
(constructions + copies) - (destructions). -/
theorem C4_refcount_along_sequence (size : Int) (a : Nat) (rc : List PtrDetails)
    (ops : List HandleOp) (hfresh : ∀ p ∈ rc, p.mem_ptr ≠ a) :
    refcountOf (runOps size a rc ops) a = runningCount 0 ops
    ∧ (destroysLiveOnly 0 ops = true → numAdopt ops < UINT_MOD →
        refcountOf (runOps size a rc ops) a = numAdopt ops - numDestruct ops
        ∧ ((refcountOf (runOps size a rc ops) a : Nat) : Int)
            = max 0 (((numAdopt ops : Nat) : Int) - ((numDestruct ops : Nat) : Int))) := by
  have h1 : refcountOf (runOps size a rc ops) a = runningCount 0 ops :=
    refcountOf_of_tracks (tracks_runOps size a ops rc 0 (Or.inl ⟨rfl, hfresh⟩))
  refine ⟨h1, fun hlive hb => ?_⟩
  obtain ⟨h2, h3⟩ := runningCount_of_destroysLiveOnly ops 0 hlive (by omega)
  rw [h1, h2]
  refine ⟨by omega, ?_⟩
  omega

/-- C4 (witness). Construct, copy, destroy, copy, destroy over address 7, next to a record
for address 5: the reference count of 7 ends at 3 - 2 = 1. -/
theorem C4_refcount_along_sequence_witness :
    refcountOf (runOps 0 7 [⟨1, 5, false, 0⟩]
      [HandleOp.construct, HandleOp.copy, HandleOp.destruct, HandleOp.copy,
        HandleOp.destruct]) 7 = 3 - 2 :=
  ((C4_refcount_along_sequence 0 7 [⟨1, 5, false, 0⟩]
      [HandleOp.construct, HandleOp.copy, HandleOp.destruct, HandleOp.copy,
        HandleOp.destruct] (by decide)).2 (by decide) (by decide)).1

/-! ## The records of one address -/

theorem recordsFor_append (l₁ l₂ : List PtrDetails) (a : Nat) :
    recordsFor (l₁ ++ l₂) a = recordsFor l₁ a ++ recordsFor l₂ a := by
  simp [recordsFor]

theorem recordsFor_cons_eq {p : PtrDetails} {a : Nat} (h : p.mem_ptr = a)
    (l : List PtrDetails) : recordsFor (p :: l) a = p :: recordsFor l a := by
  simp [recordsFor, List.filter_cons, h]

theorem recordsFor_cons_ne {p : PtrDetails} {a : Nat} (h : p.mem_ptr ≠ a)
    (l : List PtrDetails) : recordsFor (p :: l) a = recordsFor l a := by
  simp [recordsFor, List.filter_cons, h]

theorem recordsFor_eq_nil {rc : List PtrDetails} {a : Nat} :
    recordsFor rc a = [] ↔ ∀ p ∈ rc, p.mem_ptr ≠ a := by
  simp [recordsFor, List.filter_eq_nil_iff]

theorem mem_recordsFor {rc : List PtrDetails} {a : Nat} {p : PtrDetails} :
    p ∈ recordsFor rc a ↔ p ∈ rc ∧ p.mem_ptr = a := by
  simp [recordsFor, List.mem_filter]

theorem recordsFor_survivors_of_pos {rc : List PtrDetails}
    (h : ∀ p ∈ rc, 0 < p.refcount) (a : Nat) :
    recordsFor (survivors rc) a = recordsFor rc a := by
  rw [survivors_eq_self h]

theorem refcountOf_eq_head (rc : List PtrDetails) (a : Nat) :
    refcountOf rc a = match (recordsFor rc a).head? with
      | some p => p.refcount
      | none => 0 := by
  rw [refcountOf, recordsFor, List.filter_head?]

theorem refcountOf_of_consistent {rc : List PtrDetails} {a n : Nat}
    (h : consistent rc a n) : refcountOf rc a = n := by
  rw [refcountOf_eq_head]
  rcases h with ⟨hn, hnil⟩ | ⟨_, p, hp, hpn⟩
  · simp [hnil, hn]
  · simp [hp, hpn]

theorem pos_of_agrees {rc : List PtrDetails} {f : Nat → Nat} (h : agrees rc f) :
    ∀ p ∈ rc, 0 < p.refcount := by
  intro p hp
  have hmem : p ∈ recordsFor rc p.mem_ptr := mem_recordsFor.mpr ⟨hp, rfl⟩
  rcases h p.mem_ptr with ⟨_, hnil⟩ | ⟨hpos, q, hq, hqn⟩
  · rw [hnil] at hmem; simp at hmem
  · rw [hq] at hmem
    rw [List.mem_singleton.mp hmem, hqn]
    exact hpos

/-! ## Counting the live handles -/

theorem liveCount_append_singleton (live : List Pointer) (h : Pointer) (a : Nat) :
    liveCount (live ++ [h]) a = liveCount live a + (if h.addr_ = a then 1 else 0) := by
  simp [liveCount, List.countP_append, List.countP_cons]

theorem liveCount_pos_of_getElem? {live : List Pointer} {i : Nat} {h : Pointer}
    (hi : live[i]? = some h) : 0 < liveCount live h.addr_ := by
  rw [liveCount, List.countP_pos_iff]
  exact ⟨h, List.getElem?_mem hi, by simp⟩

theorem liveCount_set {live : List Pointer} {i : Nat} {h : Pointer}
    (hi : live[i]? = some h) (h' : Pointer) (a : Nat) :
    liveCount (live.set i h') a
      = liveCount live a - (if h.addr_ = a then 1 else 0) + (if h'.addr_ = a then 1 else 0) := by
  obtain ⟨hlt, hget⟩ := List.getElem?_eq_some_iff.mp hi
  rw [liveCount, List.countP_set _ _ _ _ hlt, hget]
  simp [liveCount]

theorem liveCount_eraseIdx {live : List Pointer} {i : Nat} {h : Pointer}
    (hi : live[i]? = some h) (a : Nat) :
    liveCount (live.eraseIdx i) a = liveCount live a - (if h.addr_ = a then 1 else 0) := by
  induction live generalizing i with
  | nil => simp at hi
  | cons x live ih =>
    cases i with
    | zero =>
      simp only [List.getElem?_cons_zero, Option.some.injEq] at hi
      subst hi
      by_cases hx : x.addr_ = a <;> simp [liveCount, List.countP_cons, hx]
    | succ i =>
      simp only [List.getElem?_cons_succ] at hi
      have := ih hi
      have hpos := liveCount_pos_of_getElem? hi
      simp only [liveCount] at this hpos ⊢
      simp only [List.eraseIdx_cons_succ, List.countP_cons, this]
      by_cases hh : h.addr_ = a
      · subst hh
        simp only [if_true]
        omega
      · simp [hh]

theorem liveCount_le_length (live : List Pointer) (a : Nat) :
    liveCount live a ≤ live.length := by
  exact List.countP_le_length _

/-! ## Construction and destruction keep the registry in step with the handle counts -/

theorem consistent_congr {rc rc' : List PtrDetails} {a n : Nat}
    (h : recordsFor rc' a = recordsFor rc a) (hc : consistent rc a n) :
    consistent rc' a n := by
  unfold consistent at hc ⊢
  rw [h]
  exact hc

theorem consistent_split {pre post : List PtrDetails} {p : PtrDetails} {t n : Nat}
    (hpre : ∀ q ∈ pre, q.mem_ptr ≠ t) (hp : p.mem_ptr = t)
    (hc : consistent (pre ++ p :: post) t n) :
    p.refcount = n ∧ 0 < n ∧ recordsFor post t = [] := by
  have hrec : recordsFor (pre ++ p :: post) t = p :: recordsFor post t := by
    rw [recordsFor_append, recordsFor_eq_nil.mpr hpre, recordsFor_cons_eq hp, List.nil_append]
  rcases hc with ⟨_, hnil⟩ | ⟨hpos, q, hq, hqn⟩
  · rw [hrec] at hnil; simp at hnil
  · rw [hrec] at hq
    simp only [List.cons.injEq] at hq
    exact ⟨hq.1 ▸ hqn, hpos, hq.2⟩

theorem recordsFor_split_ne {pre post : List PtrDetails} {p : PtrDetails} {t a : Nat}
    (hp : p.mem_ptr = t) (hta : t ≠ a) :
    recordsFor (pre ++ p :: post) a = recordsFor (pre ++ post) a := by
  rw [recordsFor_append, recordsFor_append, recordsFor_cons_ne (by rw [hp]; exact hta)]

theorem recordsFor_split_eq {pre post : List PtrDetails} {p : PtrDetails} {t : Nat}
    (hpre : ∀ q ∈ pre, q.mem_ptr ≠ t) (hp : p.mem_ptr = t)
    (hpost : recordsFor post t = []) :
    recordsFor (pre ++ p :: post) t = [p] := by
  rw [recordsFor_append, recordsFor_eq_nil.mpr hpre, recordsFor_cons_eq hp, hpost]
  rfl

theorem agrees_ctor (size : Int) {rc : List PtrDetails} {f : Nat → Nat} (t : Nat)
    (h : agrees rc f) (hb : f t + 1 < UINT_MOD) :
    agrees (Pointer.ctor size rc t).2 (fun a => f a + (if t = a then 1 else 0)) := by
  intro a
  rcases registry_split rc t with habs | ⟨pre, p, post, hrc, hp, hpre⟩
  · rw [Pointer.ctor_fresh size habs]
    by_cases hta : t = a
    · subst hta
      have hnil := recordsFor_eq_nil.mpr habs
      have hf : f t = 0 := by
        rcases h t with ⟨h0, _⟩ | ⟨_, q, hq, _⟩
        · exact h0
        · rw [hnil] at hq; simp at hq
      refine Or.inr ⟨by simp, ⟨1, t, decide (size > 0), toUnsigned size⟩, ?_, by simp [hf]⟩
      rw [recordsFor_append, hnil, recordsFor_cons_eq rfl]
      rfl
    · simp only [hta, if_false, Nat.add_zero]
      refine consistent_congr ?_ (h a)
      rw [recordsFor_append, recordsFor_cons_ne hta]
      simp [recordsFor]
  · subst hrc
    rw [Pointer.ctor_found size hpre hp]
    by_cases hta : t = a
    · subst hta
      obtain ⟨hpn, _, hpost⟩ := consistent_split hpre hp (h t)
      have hm : (p.refcount + 1) % UINT_MOD = f t + 1 := by
        rw [hpn, Nat.mod_eq_of_lt hb]
      exact Or.inr ⟨by simp, { p with refcount := (p.refcount + 1) % UINT_MOD },
        @recordsFor_split_eq pre post
          ⟨(p.refcount + 1) % UINT_MOD, p.mem_ptr, p.is_array, p.array_size⟩ t hpre hp hpost,
        by simp [hm]⟩
    · simp only [hta, if_false, Nat.add_zero]
      refine consistent_congr ?_ (h a)
      rw [@recordsFor_split_ne pre post
          ⟨(p.refcount + 1) % UINT_MOD, p.mem_ptr, p.is_array, p.array_size⟩ t a hp hta,
        @recordsFor_split_ne pre post p t a hp hta]

theorem agrees_dtor {rc : List PtrDetails} {f : Nat → Nat} (self : Pointer)
    (h : agrees rc f) :
    agrees (Pointer.dtor rc self) (fun a => f a - (if self.addr_ = a then 1 else 0)) := by
  have hposall := pos_of_agrees h
  intro a
  rcases registry_split rc self.addr_ with habs | ⟨pre, p, post, hrc, hp, hpre⟩
  · rw [Pointer.dtor_absent habs]
    by_cases hta : self.addr_ = a
    · subst hta
      have hnil := recordsFor_eq_nil.mpr habs
      rcases h self.addr_ with ⟨h0, _⟩ | ⟨_, q, hq, _⟩
      · exact Or.inl ⟨by simp [h0], hnil⟩
      · rw [hnil] at hq; simp at hq
    · simp only [hta, if_false, Nat.sub_zero]
      exact h a
  · subst hrc
    rw [Pointer.dtor_found hpre hp]
    have hs1 : survivors pre = pre :=
      survivors_eq_self (fun q hq => hposall q (by simp [hq]))
    have hs2 : survivors post = post :=
      survivors_eq_self (fun q hq => hposall q (by simp [hq]))
    obtain ⟨hpn, hpos, hpost⟩ := consistent_split hpre hp (h self.addr_)
    by_cases hta : self.addr_ = a
    · subst hta
      by_cases hle : p.refcount ≤ 1
      · rw [if_pos hle, hs1, hs2]
        refine Or.inl ⟨by simp; omega, ?_⟩
        rw [recordsFor_append, recordsFor_eq_nil.mpr hpre, hpost]
        rfl
      · rw [if_neg hle]
        exact Or.inr ⟨by simp; omega, { p with refcount := p.refcount - 1 },
          @recordsFor_split_eq pre post
            ⟨p.refcount - 1, p.mem_ptr, p.is_array, p.array_size⟩ self.addr_ hpre hp hpost,
          by simp [hpn]⟩
    · simp only [hta, if_false, Nat.sub_zero]
      refine consistent_congr ?_ (h a)
      by_cases hle : p.refcount ≤ 1
      · rw [if_pos hle, hs1, hs2, @recordsFor_split_ne pre post p self.addr_ a hp hta]
      · rw [if_neg hle, @recordsFor_split_ne pre post
            ⟨p.refcount - 1, p.mem_ptr, p.is_array, p.array_size⟩ self.addr_ a hp hta,
          @recordsFor_split_ne pre post p self.addr_ a hp hta]

theorem agrees_congr {rc : List PtrDetails} {f g : Nat → Nat} (h : agrees rc f)
    (hfg : ∀ a, f a = g a) : agrees rc g := by
  intro a
  rw [← hfg a]
  exact h a

/-! ## The invariant of programs -/

theorem Pointer.ctor_fst (size : Int) (rc : List PtrDetails) (t : Nat) :
    (Pointer.ctor size rc t).1 = handleOver size t := by
  rcases registry_split rc t with h | ⟨pre, p, post, hR, hp, hpre⟩
  · rw [Pointer.ctor_fresh size h]; rfl
  · rw [hR, Pointer.ctor_found size hpre hp]; rfl

theorem Pointer.assign_raw_eq (size : Int) (rc : List PtrDetails) (self : Pointer) (t : Nat) :
    Pointer.assign_raw size rc self t
      = (t, handleOver size t, Pointer.dtor (Pointer.ctor size rc t).2 self) := by
  simp only [Pointer.assign_raw, swap, ← Pointer.ctor_fst size rc t]

theorem Pointer.assign_eq (size : Int) (rc : List PtrDetails) (self b : Pointer) :
    Pointer.assign size rc self b
      = (handleOver size b.addr_, Pointer.dtor (Pointer.ctor size rc b.addr_).2 self) := by
  simp only [Pointer.assign, Pointer.copy_ctor, swap, ← Pointer.ctor_fst size rc b.addr_]

theorem agrees_adopt_release (size : Int) {rc : List PtrDetails} {live : List Pointer}
    {i : Nat} {self : Pointer} (t : Nat) (h : agrees rc (liveCount live))
    (hi : live[i]? = some self) (hb : live.length + 1 < UINT_MOD) :
    agrees (Pointer.dtor (Pointer.ctor size rc t).2 self)
      (liveCount (live.set i (handleOver size t))) := by
  have hle := liveCount_le_length live t
  have h1 := agrees_ctor size t h (by omega)
  have h2 := agrees_dtor self h1
  refine agrees_congr h2 (fun a => ?_)
  rw [liveCount_set hi]
  have hpos := liveCount_pos_of_getElem? hi
  simp only [handleOver]
  by_cases h3 : self.addr_ = a
  · subst h3
    by_cases h4 : t = self.addr_
    · simp only [h4, if_true]; omega
    · simp only [h4, if_true, if_false]; omega
  · simp only [h3, if_false]; omega

theorem Inv_exec (size : Int) {s s' : Sys} (c : Cmd) (h : Inv size s)
    (hb : s.live.length + 1 < UINT_MOD) (he : exec size s c = some s') : Inv size s' := by
  obtain ⟨hag, hshape⟩ := h
  have hadopt : ∀ t, Inv size
      { ref_container_ := (Pointer.ctor size s.ref_container_ t).2,
        live := s.live ++ [(Pointer.ctor size s.ref_container_ t).1] } := by
    intro t
    have hle := liveCount_le_length s.live t
    refine ⟨agrees_congr (agrees_ctor size t hag (by omega)) (fun a => ?_), ?_⟩
    · rw [Pointer.ctor_fst, liveCount_append_singleton]; rfl
    · intro x hx
      rcases List.mem_append.mp hx with hx | hx
      · exact hshape x hx
      · rw [List.mem_singleton.mp hx, Pointer.ctor_fst]; rfl
  have hset : ∀ (i t : Nat), ∀ x ∈ s.live.set i (handleOver size t),
      x = handleOver size x.addr_ := by
    intro i t x hx
    rcases List.mem_or_eq_of_mem_set hx with hx | hx
    · exact hshape x hx
    · rw [hx]; rfl
  cases c with
  | construct t =>
    simp only [exec, Option.some.injEq] at he
    subst he
    exact hadopt t
  | copy i =>
    cases hi : s.live[i]? with
    | none => simp [exec, hi] at he
    | some ob =>
      simp only [exec, hi, Option.some.injEq, Pointer.copy_ctor] at he
      subst he
      exact hadopt ob.addr_
  | assign_raw i t =>
    cases hi : s.live[i]? with
    | none => simp [exec, hi] at he
    | some self =>
      simp only [exec, hi, Option.some.injEq, Pointer.assign_raw_eq] at he
      subst he
      exact ⟨agrees_adopt_release size t hag hi hb, hset i t⟩
  | assign i j =>
    cases hi : s.live[i]? with
    | none => simp [exec, hi] at he
    | some self =>
      cases hj : s.live[j]? with
      | none => simp [exec, hi, hj] at he
      | some b =>
        simp only [exec, hi, hj, Option.some.injEq, Pointer.assign_eq] at he
        subst he
        exact ⟨agrees_adopt_release size b.addr_ hag hi hb, hset i b.addr_⟩
  | destroy i =>
    cases hi : s.live[i]? with
    | none => simp [exec, hi] at he
    | some self =>
      simp only [exec, hi, Option.some.injEq] at he
      subst he
      refine ⟨agrees_congr (agrees_dtor self hag) (fun a => ?_), ?_⟩
      · rw [liveCount_eraseIdx hi]
      · intro x hx
        exact hshape x (List.mem_of_mem_eraseIdx hx)

theorem Inv_init (size : Int) : Inv size Sys.init := by
  refine ⟨fun a => Or.inl ⟨rfl, rfl⟩, ?_⟩
  intro h hh
  simp [Sys.init] at hh

theorem Inv_execAllBelow (size : Int) (cmds : List Cmd) :
    ∀ s s', Inv size s → execAllBelow size (UINT_MOD - 1) s cmds = some s' → Inv size s' := by
  induction cmds with
  | nil =>
    intro s s' h he
    simp only [execAllBelow, Option.some.injEq] at he
    exact he ▸ h
  | cons c cs ih =>
    intro s s' h he
    by_cases hb : s.live.length < UINT_MOD - 1
    · simp only [execAllBelow, hb, if_true] at he
      cases hs : exec size s c with
      | none => simp [hs] at he
      | some s1 =>
        simp only [hs] at he
        have hb' : s.live.length + 1 < UINT_MOD := by
          simp only [UINT_MOD] at hb ⊢; omega
        exact ih s1 s' (Inv_exec size c h hb' hs) he
    · simp [execAllBelow, hb] at he

theorem Inv_of_ReachableBelow {size : Int} {s : Sys}
    (h : ReachableBelow size (UINT_MOD - 1) s) : Inv size s := by
  obtain ⟨cmds, hc⟩ := h
  exact Inv_execAllBelow size cmds Sys.init s (Inv_init size) hc

/-! ## Many handles over one address -/

/-- On a registry holding the single record for `a`, `n` constructions over `a` add `n` to
its reference count modulo 2^32 and add `n` live handles. -/
theorem execAll_replicate_construct (size : Int) (a : Nat) (ia : Bool) (sz : Nat) (n : Nat) :
    ∀ (x : Nat) (live : List Pointer), x < UINT_MOD →
      execAll size { ref_container_ := [⟨x, a, ia, sz⟩], live := live }
          (List.replicate n (Cmd.construct a))
        = some { ref_container_ := [⟨(x + n) % UINT_MOD, a, ia, sz⟩],
                 live := live ++ List.replicate n (handleOver size a) } := by
  induction n with
  | zero =>
    intro x live hx
    simp [execAll, Nat.mod_eq_of_lt hx]
  | succ n ih =>
    intro x live hx
    have hstep : exec size { ref_container_ := [⟨x, a, ia, sz⟩], live := live }
        (Cmd.construct a)
        = some { ref_container_ := [⟨(x + 1) % UINT_MOD, a, ia, sz⟩],
                 live := live ++ [handleOver size a] } := by
      have hc := @Pointer.ctor_found size [] [] ⟨x, a, ia, sz⟩ a (by simp) rfl
      simp only [List.nil_append] at hc
      simp only [exec, hc]
      rfl
    have hlt : (x + 1) % UINT_MOD < UINT_MOD := Nat.mod_lt _ (by decide)
    rw [List.replicate_succ, execAll, hstep]
    simp only
    rw [ih _ _ hlt]
    have h1 : ((x + 1) % UINT_MOD + n) % UINT_MOD = (x + (n + 1)) % UINT_MOD := by
      simp only [UINT_MOD]; omega
    have h2 : live ++ [handleOver size a] ++ List.replicate n (handleOver size a)
        = live ++ List.replicate (n + 1) (handleOver size a) := by
      rw [List.append_assoc, List.replicate_succ]; rfl
    rw [h1, h2]

/-- From the initial state, `n + 1` constructions over `a`. -/
theorem execAll_init_replicate_construct (size : Int) (a n : Nat) :
    execAll size Sys.init (List.replicate (n + 1) (Cmd.construct a))
      = some { ref_container_ :=
                 [⟨(1 + n) % UINT_MOD, a, decide (size > 0), toUnsigned size⟩],
               live := List.replicate (n + 1) (handleOver size a) } := by
  have hstep : exec size Sys.init (Cmd.construct a)
      = some { ref_container_ := [⟨1, a, decide (size > 0), toUnsigned size⟩],
               live := [handleOver size a] } := by
    have hc := @Pointer.ctor_fresh size [] a (by simp)
    simp only [exec, Sys.init, hc]
    rfl
  rw [List.replicate_succ, execAll, hstep]
  simp only
  rw [execAll_replicate_construct size a _ _ n 1 _ (by decide)]
  rfl

/-- C3 (counterexample). After 2^32 handles have been constructed over address 1 (and none
destroyed), the record of address 1 has reference count 0 while 2^32 live handles hold
the address. -/
theorem C3_counterexample_refcount_wraps :
    Reachable 0 { ref_container_ := [⟨0, 1, false, 0⟩],
                  live := List.replicate 4294967296 ⟨1, false, 0⟩ }
    ∧ refcountOf [⟨0, 1, false, 0⟩] 1 = 0
    ∧ liveCount (List.replicate 4294967296 ⟨1, false, 0⟩) 1 = 4294967296 := by
  refine ⟨⟨List.replicate (4294967295 + 1) (Cmd.construct 1), ?_⟩, by decide, ?_⟩
  · rw [execAll_init_replicate_construct 0 1 4294967295]
    rfl
  · rw [liveCount, List.countP_replicate]
    rfl

/-- C3 (amended). In every state reached from the empty registry with no live handle by
handle constructions, copy-constructions, raw-address assignments, handle assignments and
destructions of live handles, each issued while fewer than 2^32 - 1 handles are alive,
for every address `a` the reference count of `a`'s record equals the number of live
handles holding `a`, and `a` has no record exactly when no live handle holds it. -/
theorem C3_refcount_equals_live_handles (size : Int) (s : Sys)
    (h : ReachableBelow size (UINT_MOD - 1) s) (a : Nat) :
    refcountOf s.ref_container_ a = liveCount s.live a
    ∧ ((∀ p ∈ s.ref_container_, p.mem_ptr ≠ a) ↔ liveCount s.live a = 0) := by
  have hinv := (Inv_of_ReachableBelow h).1 a
  refine ⟨refcountOf_of_consistent hinv, ?_⟩
  rw [← recordsFor_eq_nil]
  rcases hinv with ⟨h0, hnil⟩ | ⟨hpos, p, hp, _⟩
  · exact ⟨fun _ => h0, fun _ => hnil⟩
  · constructor
    · intro hnil; rw [hnil] at hp; simp at hp
    · intro h0; omega

/-- C3 (witness). Construct over 5, copy it, construct over 7, assign the third handle to
the first, destroy the second: two live handles over 7, none over 5. -/
theorem C3_refcount_equals_live_handles_witness :
    refcountOf [⟨2, 7, false, 0⟩] 7 = liveCount [⟨7, false, 0⟩, ⟨7, false, 0⟩] 7
    ∧ ((∀ p ∈ [(⟨2, 7, false, 0⟩ : PtrDetails)], p.mem_ptr ≠ 7)
        ↔ liveCount [⟨7, false, 0⟩, ⟨7, false, 0⟩] 7 = 0) :=
  C3_refcount_equals_live_handles 0
    { ref_container_ := [⟨2, 7, false, 0⟩], live := [⟨7, false, 0⟩, ⟨7, false, 0⟩] }
    ⟨[Cmd.construct 5, Cmd.copy 0, Cmd.construct 7, Cmd.assign 0 2, Cmd.destroy 1],
      by decide⟩ 7

/-! ## Handle assignment -/

theorem uniqueAddrs_of_sublist {rc rc' : List PtrDetails} (hs : rc'.Sublist rc)
    (h : uniqueAddrs rc) : uniqueAddrs rc' :=
  List.Nodup.sublist (hs.map _) h

theorem uniqueAddrs_survivors {rc : List PtrDetails} (h : uniqueAddrs rc) :
    uniqueAddrs (survivors rc) :=
  uniqueAddrs_of_sublist (List.filter_sublist _) h

theorem uniqueAddrs_ctor (size : Int) {rc : List PtrDetails} (t : Nat) (h : uniqueAddrs rc) :
    uniqueAddrs (Pointer.ctor size rc t).2 := by
  rcases registry_split rc t with habs | ⟨pre, p, post, hrc, hp, hpre⟩
  · rw [Pointer.ctor_fresh size habs]
    unfold uniqueAddrs at h ⊢
    rw [List.map_append, List.nodup_append]
    refine ⟨h, by simp, ?_⟩
    intro x hx hx'
    simp only [List.map_cons, List.map_nil, List.mem_singleton] at hx'
    obtain ⟨q, hq, hqx⟩ := List.mem_map.mp hx
    exact habs q hq (hqx.trans hx')
  · subst hrc
    rw [Pointer.ctor_found size hpre hp]
    unfold uniqueAddrs at h ⊢
    simpa using h

theorem uniqueAddrs_dtor {rc : List PtrDetails} (self : Pointer) (h : uniqueAddrs rc) :
    uniqueAddrs (Pointer.dtor rc self) := by
  rcases registry_split rc self.addr_ with habs | ⟨pre, p, post, hrc, hp, hpre⟩
  · rw [Pointer.dtor_absent habs]; exact h
  · subst hrc
    rw [Pointer.dtor_found hpre hp]
    by_cases hle : p.refcount ≤ 1
    · rw [if_pos hle]
      refine uniqueAddrs_of_sublist ?_ h
      exact List.Sublist.append (List.filter_sublist _)
        (List.Sublist.cons _ (List.filter_sublist _))
    · rw [if_neg hle]
      unfold uniqueAddrs at h ⊢
      simpa using h

theorem uniqueAddrs_exec (size : Int) {s s' : Sys} (c : Cmd)
    (h : uniqueAddrs s.ref_container_) (he : exec size s c = some s') :
    uniqueAddrs s'.ref_container_ := by
  cases c with
  | construct t =>
    simp only [exec, Option.some.injEq] at he
    subst he
    exact uniqueAddrs_ctor size t h
  | copy i =>
    cases hi : s.live[i]? with
    | none => simp [exec, hi] at he
    | some ob =>
      simp only [exec, hi, Option.some.injEq, Pointer.copy_ctor] at he
      subst he
      exact uniqueAddrs_ctor size _ h
  | assign_raw i t =>
    cases hi : s.live[i]? with
    | none => simp [exec, hi] at he
    | some self =>
      simp only [exec, hi, Option.some.injEq, Pointer.assign_raw_eq] at he
      subst he
      exact uniqueAddrs_dtor _ (uniqueAddrs_ctor size t h)
  | assign i j =>
    cases hi : s.live[i]? with
    | none => simp [exec, hi] at he
    | some self =>
      cases hj : s.live[j]? with
      | none => simp [exec, hi, hj] at he
      | some b =>
        simp only [exec, hi, hj, Option.some.injEq, Pointer.assign_eq] at he
        subst he
        exact uniqueAddrs_dtor _ (uniqueAddrs_ctor size _ h)
  | destroy i =>
    cases hi : s.live[i]? with
    | none => simp [exec, hi] at he
    | some self =>
      simp only [exec, hi, Option.some.injEq] at he
      subst he
      exact uniqueAddrs_dtor _ h

theorem uniqueAddrs_execAll (size : Int) (cmds : List Cmd) :
    ∀ s s', uniqueAddrs s.ref_container_ → execAll size s cmds = some s' →
      uniqueAddrs s'.ref_container_ := by
  induction cmds with
  | nil =>
    intro s s' h he
    simp only [execAll, Option.some.injEq] at he
    exact he ▸ h
  | cons c cs ih =>
    intro s s' h he
    cases hs : exec size s c with
    | none => simp [execAll, hs] at he
    | some s1 =>
      simp only [execAll, hs] at he
      exact ih s1 s' (uniqueAddrs_exec size c h hs) he

/-- C11. If no two records of the registry have the same `mem_ptr`, the same holds after
`Pointer(t)`, after the copy constructor, after `operator=(T*)`, after
`operator=(Pointer)`, after the destructor, after `Collect()` and after `Shutdown()`; and
every registry reachable from the empty one has at most one record per address. -/
theorem C11_unique_address_invariant (size : Int) (R : List PtrDetails)
    (h : uniqueAddrs R) :
    (∀ t, uniqueAddrs (Pointer.ctor size R t).2)
    ∧ (∀ ob, uniqueAddrs (Pointer.copy_ctor size R ob).2)
    ∧ (∀ self t, uniqueAddrs (Pointer.assign_raw size R self t).2.2)
    ∧ (∀ self b, uniqueAddrs (Pointer.assign size R self b).2)
    ∧ (∀ self, uniqueAddrs (Pointer.dtor R self))
    ∧ uniqueAddrs (Pointer.Collect R).2
    ∧ uniqueAddrs (Pointer.Shutdown R)
    ∧ (∀ s, Reachable size s → uniqueAddrs s.ref_container_) := by
  refine ⟨fun t => uniqueAddrs_ctor size t h, fun ob => uniqueAddrs_ctor size _ h, ?_, ?_,
    fun self => uniqueAddrs_dtor self h, ?_, ?_, ?_⟩
  · intro self t
    rw [Pointer.assign_raw_eq]
    exact uniqueAddrs_dtor _ (uniqueAddrs_ctor size t h)
  · intro self b
    rw [Pointer.assign_eq]
    exact uniqueAddrs_dtor _ (uniqueAddrs_ctor size _ h)
  · rw [Pointer.Collect_eq]
    exact uniqueAddrs_survivors h
  · unfold Pointer.Shutdown
    split_ifs
    · exact h
    · rw [Pointer.Collect_eq, survivors_map_zero]
      exact List.nodup_nil
  · rintro s ⟨cmds, hc⟩
    exact uniqueAddrs_execAll size cmds Sys.init s List.nodup_nil hc

/-- C11 (witness). A registry with records for the addresses 5 and 7: constructing over 7
and over 9, and destroying a handle over 5, keep the addresses distinct. -/
theorem C11_unique_address_invariant_witness :
    uniqueAddrs (Pointer.ctor 0 [⟨1, 5, false, 0⟩, ⟨2, 7, false, 0⟩] 7).2
    ∧ uniqueAddrs (Pointer.ctor 0 [⟨1, 5, false, 0⟩, ⟨2, 7, false, 0⟩] 9).2
    ∧ uniqueAddrs (Pointer.dtor [⟨1, 5, false, 0⟩, ⟨2, 7, false, 0⟩] ⟨5, false, 0⟩) :=
  ⟨(C11_unique_address_invariant 0 [⟨1, 5, false, 0⟩, ⟨2, 7, false, 0⟩]
      (by simp [uniqueAddrs])).1 7,
   (C11_unique_address_invariant 0 [⟨1, 5, false, 0⟩, ⟨2, 7, false, 0⟩]
      (by simp [uniqueAddrs])).1 9,
   (C11_unique_address_invariant 0 [⟨1, 5, false, 0⟩, ⟨2, 7, false, 0⟩]
      (by simp [uniqueAddrs])).2.2.2.2.1 ⟨5, false, 0⟩⟩

/-- C12. When no record of the registry has the address of the handle, the destructor
returns the registry as it is: nothing added, removed or modified (records of reference
count 0 included, so `Collect` has not run), and no error path exists. -/
theorem C12_destruct_unregistered_is_noop (R : List PtrDetails) (self : Pointer)
    (h : ∀ p ∈ R, p.mem_ptr ≠ self.addr_) :
    Pointer.dtor R self = R ∧ Pointer.FindPtrInfo R self.addr_ = none :=
  ⟨Pointer.dtor_absent h, Pointer.FindPtrInfo_eq_none.mpr h⟩

/-- C12 (witness). A handle over address 9 destroyed on a registry with records for 5 and 7,
one of them with reference count 0. -/
theorem C12_destruct_unregistered_is_noop_witness :
    Pointer.dtor [⟨1, 5, false, 0⟩, ⟨0, 7, false, 0⟩] ⟨9, false, 0⟩
      = [⟨1, 5, false, 0⟩, ⟨0, 7, false, 0⟩] :=
  (C12_destruct_unregistered_is_noop [⟨1, 5, false, 0⟩, ⟨0, 7, false, 0⟩] ⟨9, false, 0⟩
    (by decide)).1

/-! ## Handles over the null address -/

/-- C13 (counterexample). A default-constructed `Pointer` on the empty registry registers
a record for the null address; destroying that handle removes the record again, so the
destructor does not leave the registry as it was. -/
theorem C13_counterexample_null_handle_is_tracked :
    Pointer.default_ctor 0 [] = (⟨0, false, 0⟩, [⟨1, 0, false, 0⟩])
    ∧ Reachable 0 { ref_container_ := [⟨1, 0, false, 0⟩], live := [⟨0, false, 0⟩] }
    ∧ Pointer.dtor [⟨1, 0, false, 0⟩] ⟨0, false, 0⟩ = []
    ∧ Pointer.dtor [⟨1, 0, false, 0⟩] ⟨0, false, 0⟩ ≠ [⟨1, 0, false, 0⟩] := by
  refine ⟨by decide, ⟨[Cmd.construct 0], by decide⟩, by decide, by decide⟩

/-- C13 (amended). In a state reached while fewer than 2^32 - 1 handles are alive, the
destructor of a live handle holding the null address treats null like any other address:
the registry has exactly one record `p` for null, its reference count is the number of
live null handles, and the destructor lowers that count by 1 when it is at least 2 and
removes `p` when it is 1, leaving all other records as they were; the registry is never
left as it was. -/
theorem C13_destruct_null_handle (size : Int) (s : Sys) (i : Nat) (h : Pointer)
    (hreach : ReachableBelow size (UINT_MOD - 1) s)
    (hi : s.live[i]? = some h) (hnull : h.addr_ = 0) :
    ∃ pre p post, s.ref_container_ = pre ++ p :: post
      ∧ p.mem_ptr = 0 ∧ (∀ q ∈ pre, q.mem_ptr ≠ 0) ∧ (∀ q ∈ post, q.mem_ptr ≠ 0)
      ∧ p.refcount = liveCount s.live 0 ∧ 1 ≤ p.refcount
      ∧ (p.refcount = 1 → Pointer.dtor s.ref_container_ h = pre ++ post)
      ∧ (2 ≤ p.refcount →
          Pointer.dtor s.ref_container_ h
            = pre ++ { p with refcount := p.refcount - 1 } :: post)
      ∧ Pointer.dtor s.ref_container_ h ≠ s.ref_container_ := by
  obtain ⟨hag, _⟩ := Inv_of_ReachableBelow hreach
  have hposall := pos_of_agrees hag
  have hlive := liveCount_pos_of_getElem? hi
  rw [hnull] at hlive
  rcases registry_split s.ref_container_ 0 with habs | ⟨pre, p, post, hrc, hp, hpre⟩
  · rcases hag 0 with ⟨h0, _⟩ | ⟨_, q, hq, _⟩
    · omega
    · rw [recordsFor_eq_nil.mpr habs] at hq; simp at hq
  · have hc := hag 0
    rw [hrc] at hc hposall
    obtain ⟨hpn, hpos, hpost⟩ := consistent_split hpre hp hc
    have hs1 : survivors pre = pre :=
      survivors_eq_self (fun q hq => hposall q (by simp [hq]))
    have hs2 : survivors post = post :=
      survivors_eq_self (fun q hq => hposall q (by simp [hq]))
    have hpre' : ∀ q ∈ pre, q.mem_ptr ≠ h.addr_ := by rw [hnull]; exact hpre
    have hp' : p.mem_ptr = h.addr_ := by rw [hnull]; exact hp
    have hd := @Pointer.dtor_found pre post p h hpre' hp'
    rw [hs1, hs2] at hd
    refine ⟨pre, p, post, hrc, hp, hpre, recordsFor_eq_nil.mp hpost, hpn, by omega, ?_, ?_, ?_⟩
    · intro h1
      rw [hrc, hd, if_pos (by omega)]
    · intro h2
      rw [hrc, hd, if_neg (by omega)]
    · rw [hrc, hd]
      by_cases hle : p.refcount ≤ 1
      · rw [if_pos hle]
        intro heq
        have := congrArg List.length heq
        simp at this
      · rw [if_neg hle]
        intro heq
        have h3 := List.append_cancel_left heq
        simp only [List.cons.injEq, and_true] at h3
        have h4 := congrArg PtrDetails.refcount h3
        simp only at h4
        omega

/-- C13 (witness). Two default-constructed handles are alive; destroying the first lowers
the reference count of the null record from 2 to 1. -/
theorem C13_destruct_null_handle_witness :
    ∃ pre p post, ([⟨2, 0, false, 0⟩] : List PtrDetails) = pre ++ p :: post
      ∧ p.refcount = liveCount [⟨0, false, 0⟩, ⟨0, false, 0⟩] 0
      ∧ Pointer.dtor [⟨2, 0, false, 0⟩] ⟨0, false, 0⟩ ≠ [⟨2, 0, false, 0⟩] := by
  obtain ⟨pre, p, post, h1, _, _, _, h5, _, _, _, h9⟩ :=
    C13_destruct_null_handle 0
      { ref_container_ := [⟨2, 0, false, 0⟩], live := [⟨0, false, 0⟩, ⟨0, false, 0⟩] }
      0 ⟨0, false, 0⟩ ⟨[Cmd.construct 0, Cmd.copy 0], by decide⟩ rfl rfl
  exact ⟨pre, p, post, h1, h5, h9⟩

/-! ## The bounds-checked cursor -/

theorem Iter.deref_ctor {α : Type} (mem : Int → α) (current first last : Int) :
    Iter.deref mem (Iter.ctor current first last)
      = if current ≥ last ∨ current < first then Except.error OutOfRangeExc.mk
        else Except.ok (mem current) := rfl

theorem Iter.arrow_ctor (current first last : Int) :
    Iter.arrow (Iter.ctor current first last)
      = if current ≥ last ∨ current < first then Except.error OutOfRangeExc.mk
        else Except.ok current := rfl

/-- C14. For the cursor `Iter(current, first, last)`, `operator*` and `operator->` throw
`OutOfRangeExc` exactly when `current < first` or `current >= last`, and otherwise return
the element at `current`, resp. the address `current`.  Over an array of length `N` at
`first`, dereferencing at `first + k` succeeds for `0 <= k <= N - 1` and fails at
`first - 1` and at `first + N`. -/
theorem C14_deref_bounds_checked {α : Type} (mem : Int → α) (current first last : Int) :
    (Iter.deref mem (Iter.ctor current first last) = Except.error OutOfRangeExc.mk
        ↔ (current < first ∨ current ≥ last))
    ∧ (Iter.arrow (Iter.ctor current first last) = Except.error OutOfRangeExc.mk
        ↔ (current < first ∨ current ≥ last))
    ∧ (¬ (current < first ∨ current ≥ last) →
        Iter.deref mem (Iter.ctor current first last) = Except.ok (mem current)
        ∧ Iter.arrow (Iter.ctor current first last) = Except.ok current)
    ∧ (∀ N k : Int, 0 ≤ k → k ≤ N - 1 →
        Iter.deref mem (Iter.ctor (first + k) first (first + N)) = Except.ok (mem (first + k))
        ∧ Iter.arrow (Iter.ctor (first + k) first (first + N)) = Except.ok (first + k))
    ∧ (∀ N : Int, 0 ≤ N →
        Iter.deref mem (Iter.ctor (first - 1) first (first + N))
            = Except.error OutOfRangeExc.mk
        ∧ Iter.deref mem (Iter.ctor (first + N) first (first + N))
            = Except.error OutOfRangeExc.mk) := by
  refine ⟨?_, ?_, ?_, ?_, ?_⟩
  · rw [Iter.deref_ctor]
    by_cases h : current ≥ last ∨ current < first
    · rw [if_pos h]
      exact ⟨fun _ => (by omega), fun _ => rfl⟩
    · rw [if_neg h]
      exact ⟨fun e => (nomatch e), fun hc => absurd (by omega) h⟩
  · rw [Iter.arrow_ctor]
    by_cases h : current ≥ last ∨ current < first
    · rw [if_pos h]
      exact ⟨fun _ => (by omega), fun _ => rfl⟩
    · rw [if_neg h]
      exact ⟨fun e => (nomatch e), fun hc => absurd (by omega) h⟩
  · intro h
    rw [Iter.deref_ctor, Iter.arrow_ctor, if_neg (by omega), if_neg (by omega)]
    exact ⟨rfl, rfl⟩
  · intro N k h0 h1
    rw [Iter.deref_ctor, Iter.arrow_ctor, if_neg (by omega), if_neg (by omega)]
    exact ⟨rfl, rfl⟩
  · intro N h0
    rw [Iter.deref_ctor, Iter.deref_ctor, if_pos (by omega), if_pos (by omega)]
    exact ⟨rfl, rfl⟩

/-- C14 (witness). A cursor over an array of length 3 at position 10. -/
theorem C14_deref_bounds_checked_witness :
    Iter.deref (fun z : Int => z * 2) (Iter.ctor (10 + 2) 10 (10 + 3)) = Except.ok ((10 + 2) * 2)
    ∧ Iter.deref (fun z : Int => z * 2) (Iter.ctor (10 - 1) 10 (10 + 3))
        = Except.error OutOfRangeExc.mk
    ∧ Iter.deref (fun z : Int => z * 2) (Iter.ctor (10 + 3) 10 (10 + 3))
        = Except.error OutOfRangeExc.mk :=
  ⟨((C14_deref_bounds_checked (fun z : Int => z * 2) 10 10 13).2.2.2.1 3 2
      (by decide) (by decide)).1,
   ((C14_deref_bounds_checked (fun z : Int => z * 2) 10 10 13).2.2.2.2 3 (by decide)).1,
   ((C14_deref_bounds_checked (fun z : Int => z * 2) 10 10 13).2.2.2.2 3 (by decide)).2⟩

theorem toUnsigned_eq_of_range {z : Int} (h0 : 0 ≤ z) (h1 : z < 4294967296) :
    toUnsigned z = z.toNat := by
  unfold toUnsigned
  rw [Int.emod_eq_of_lt h0 (by simpa [UINT_MOD] using h1)]

theorem Iter.index_ctor {α : Type} (mem : Int → α) (current first last i : Int) :
    Iter.index mem (Iter.ctor current first last) i
      = if i < 0 ∨ toUnsigned i ≥ toUnsigned (last - first) then
          Except.error OutOfRangeExc.mk
        else Except.ok (mem (current + i)) := rfl

/-- C15 (counterexample). Over a range of 2^32 elements `length_` is 0, and `operator[](0)`
throws although `0 <= 0 < N`. -/
theorem C15_counterexample_length_truncated :
    Iter.index (fun z : Int => z) (Iter.ctor 0 0 4294967296) 0
        = Except.error OutOfRangeExc.mk
    ∧ (Iter.ctor 0 0 4294967296).length_ = 0
    ∧ ¬ ((0 : Int) < 0 ∨ (0 : Int) ≥ 4294967296 - 0) := by
  refine ⟨rfl, rfl, by decide⟩

/-- C15 (amended). For the cursor `Iter(current, first, last)` with `first <= last` and
`N = last - first`, and every `int` `i`: `operator[](i)` throws `OutOfRangeExc` exactly when
`i < 0` or `i >= N mod 2^32` (the value of the `unsigned` `length_`), and otherwise returns
the element at `current + i`.  When `N < 2^32` this is: it throws exactly when `i < 0` or
`i >= N`; a negative `i` is never let through. -/
theorem C15_index_bounds_checked {α : Type} (mem : Int → α) (current first last i : Int)
    (hfl : first ≤ last) (hlo : -2147483648 ≤ i) (hhi : i < 2147483648) :
    (Iter.index mem (Iter.ctor current first last) i = Except.error OutOfRangeExc.mk
        ↔ (i < 0 ∨ i ≥ (last - first) % 4294967296))
    ∧ (¬ (i < 0 ∨ i ≥ (last - first) % 4294967296) →
        Iter.index mem (Iter.ctor current first last) i = Except.ok (mem (current + i)))
    ∧ (last - first < 4294967296 →
        (Iter.index mem (Iter.ctor current first last) i = Except.error OutOfRangeExc.mk
          ↔ (i < 0 ∨ i ≥ last - first))
        ∧ (¬ (i < 0 ∨ i ≥ last - first) →
            Iter.index mem (Iter.ctor current first last) i
              = Except.ok (mem (current + i)))) := by
  have hmod0 : 0 ≤ (last - first) % 4294967296 := Int.emod_nonneg _ (by decide)
  have hlen : ((toUnsigned (last - first) : Nat) : Int) = (last - first) % 4294967296 := by
    unfold toUnsigned
    rw [Int.toNat_of_nonneg (by simpa [UINT_MOD] using hmod0)]
    simp [UINT_MOD]
  have hcond : ∀ (_ : 0 ≤ i), (toUnsigned i ≥ toUnsigned (last - first)
      ↔ i ≥ (last - first) % 4294967296) := by
    intro h0
    rw [← hlen, toUnsigned_eq_of_range h0 (by omega)]
    omega
  have key : (i < 0 ∨ toUnsigned i ≥ toUnsigned (last - first))
      ↔ (i < 0 ∨ i ≥ (last - first) % 4294967296) := by
    by_cases hneg : i < 0
    · simp [hneg]
    · have := hcond (by omega)
      constructor
      · rintro (h | h)
        · exact Or.inl h
        · exact Or.inr (this.mp h)
      · rintro (h | h)
        · exact Or.inl h
        · exact Or.inr (this.mpr h)
  have main : (Iter.index mem (Iter.ctor current first last) i
        = Except.error OutOfRangeExc.mk ↔ (i < 0 ∨ i ≥ (last - first) % 4294967296))
      ∧ (¬ (i < 0 ∨ i ≥ (last - first) % 4294967296) →
        Iter.index mem (Iter.ctor current first last) i = Except.ok (mem (current + i))) := by
    rw [Iter.index_ctor]
    by_cases h : i < 0 ∨ toUnsigned i ≥ toUnsigned (last - first)
    · rw [if_pos h]
      exact ⟨⟨fun _ => key.mp h, fun _ => rfl⟩, fun hn => absurd (key.mp h) hn⟩
    · rw [if_neg h]
      refine ⟨⟨fun e => ?_, fun hc => absurd (key.mpr hc) h⟩, fun _ => rfl⟩
      cases e
  refine ⟨main.1, main.2, fun hN => ?_⟩
  have hm : (last - first) % 4294967296 = last - first :=
    Int.emod_eq_of_lt (by omega) hN
  rw [hm] at main
  exact main

/-- C15 (witness). A cursor over 3 elements at position 10: index 2 is read, index 3 and
index -1 throw. -/
theorem C15_index_bounds_checked_witness :
    Iter.index (fun z : Int => z) (Iter.ctor 10 10 13) 2 = Except.ok (10 + 2)
    ∧ (Iter.index (fun z : Int => z) (Iter.ctor 10 10 13) 3 = Except.error OutOfRangeExc.mk
        ↔ ((3 : Int) < 0 ∨ (3 : Int) ≥ 13 - 10))
    ∧ (Iter.index (fun z : Int => z) (Iter.ctor 10 10 13) (-1) = Except.error OutOfRangeExc.mk
        ↔ ((-1 : Int) < 0 ∨ (-1 : Int) ≥ 13 - 10)) :=
  ⟨((C15_index_bounds_checked (fun z : Int => z) 10 10 13 2 (by decide) (by decide)
      (by decide)).2.2 (by decide)).2 (by decide),
   ((C15_index_bounds_checked (fun z : Int => z) 10 10 13 3 (by decide) (by decide)
      (by decide)).2.2 (by decide)).1,
   ((C15_index_bounds_checked (fun z : Int => z) 10 10 13 (-1) (by decide) (by decide)
      (by decide)).2.2 (by decide)).1⟩

/-- C16 (the code at the failing input). A cursor over the three positions 10, 11, 12 that
has been advanced twice stands at 12; `operator[](2)` passes the check `2 < length_` and
returns the element at position 14, outside `[10, 13)`, without throwing. -/
theorem C16_index_reaches_outside_range :
    (advance 2 (Iter.ctor 10 10 13)).ptr_ = 12
    ∧ Iter.index (fun z : Int => z) (advance 2 (Iter.ctor 10 10 13)) 2 = Except.ok 14
    ∧ ¬ ((10 : Int) ≤ 14 ∧ (14 : Int) < 13) := by
  refine ⟨rfl, rfl, by decide⟩

theorem toInt_of_lt {n : Nat} (h : n < 2147483648) : toInt n = (n : Int) := by
  unfold toInt
  have hm : n % UINT_MOD = n := Nat.mod_eq_of_lt (by simp only [UINT_MOD]; omega)
  rw [hm, if_pos h]

theorem toUnsigned_natCast {n : Nat} (h : n < 4294967296) : toUnsigned (n : Int) = n := by
  rw [toUnsigned_eq_of_range (Int.natCast_nonneg n) (by omega)]
  simp

theorem advance_eq (k : Nat) :
    ∀ it : Iter, advance k it = { it with ptr_ := it.ptr_ + (k : Int) } := by
  induction k with
  | zero => intro it; simp [advance]
  | succ k ih =>
    intro it
    rw [advance, ih]
    simp only [Iter.incr, Iter.mk.injEq, and_true]
    push_cast
    omega

theorem Pointer.begin_eq (h : Pointer) (n : Nat)
    (hn : n = if h.is_array_ then h.array_size_ else 1) (hlt : n < 2147483648) :
    h.begin = { ptr_ := (h.addr_ : Int), begin_ := (h.addr_ : Int),
                end_ := (h.addr_ : Int) + (n : Int), length_ := n }
    ∧ h.end_ = { ptr_ := (h.addr_ : Int) + (n : Int), begin_ := (h.addr_ : Int),
                 end_ := (h.addr_ : Int) + (n : Int), length_ := n } := by
  have hlen : toUnsigned ((h.addr_ : Int) + (n : Int) - (h.addr_ : Int)) = n := by
    rw [show (h.addr_ : Int) + (n : Int) - (h.addr_ : Int) = (n : Int) by omega]
    exact toUnsigned_natCast (by omega)
  simp only [Pointer.begin, Pointer.end_, ← hn, toInt_of_lt hlt, Iter.ctor, hlen, and_self]

/-- C17. For every handle of `Pointer<T, size>` (members as the constructor sets them, `size`
an `int`) with address `a`, and `n = array_size` if `is_array` and `n = 1` otherwise:
`begin()` is the cursor at `a` over `[a, a + n)`, `end()` the cursor at `a + n` over the same
bounds; both have `size() = n`, `end() - begin()` is `n`, dereferencing `begin()` advanced
`k` times succeeds for `k < n` (giving the element at `a + k`), and dereferencing `end()`
throws `OutOfRangeExc`. -/
theorem C17_begin_end_cursors {α : Type} (mem : Int → α) (size : Int) (h : Pointer) (n : Nat)
    (hlo : -2147483648 ≤ size) (hhi : size < 2147483648)
    (hshape : h = handleOver size h.addr_)
    (hn : n = if h.is_array_ then h.array_size_ else 1) :
    h.begin = { ptr_ := (h.addr_ : Int), begin_ := (h.addr_ : Int),
                end_ := (h.addr_ : Int) + (n : Int), length_ := n }
    ∧ h.end_ = { ptr_ := (h.addr_ : Int) + (n : Int), begin_ := (h.addr_ : Int),
                 end_ := (h.addr_ : Int) + (n : Int), length_ := n }
    ∧ h.begin.size = n ∧ h.end_.size = n
    ∧ h.end_.diff h.begin = (n : Int)
    ∧ (∀ k : Nat, k < n →
        Iter.deref mem (advance k h.begin) = Except.ok (mem ((h.addr_ : Int) + (k : Int))))
    ∧ Iter.deref mem h.end_ = Except.error OutOfRangeExc.mk := by
  have hlt : n < 2147483648 := by
    have h1 : h.is_array_ = decide (size > 0) := by rw [hshape]; rfl
    have h2 : h.array_size_ = toUnsigned size := by rw [hshape]; rfl
    rw [hn, h1, h2]
    by_cases hs : size > 0
    · simp only [hs, decide_True, if_true]
      rw [toUnsigned_eq_of_range (by omega) (by omega)]
      omega
    · simp [hs]
  obtain ⟨hb, he⟩ := Pointer.begin_eq h n hn hlt
  refine ⟨hb, he, by rw [hb]; rfl, by rw [he]; rfl, ?_, ?_, ?_⟩
  · rw [hb, he]
    simp only [Iter.diff, truncInt]
    rw [show (h.addr_ : Int) + (n : Int) - (h.addr_ : Int) = (n : Int) by omega,
      toUnsigned_natCast (by omega), toInt_of_lt hlt]
  · intro k hk
    rw [hb, advance_eq]
    simp only [Iter.deref]
    rw [if_neg (by omega)]
  · rw [he]
    simp only [Iter.deref]
    rw [if_pos (by omega)]

/-- C17 (witness). A handle of `Pointer<T, 3>` over address 20. -/
theorem C17_begin_end_cursors_witness :
    (⟨20, true, 3⟩ : Pointer).end_.diff (⟨20, true, 3⟩ : Pointer).begin = 3
    ∧ Iter.deref (fun z : Int => z) (advance 2 (⟨20, true, 3⟩ : Pointer).begin)
        = Except.ok (20 + 2)
    ∧ Iter.deref (fun z : Int => z) (⟨20, true, 3⟩ : Pointer).end_
        = Except.error OutOfRangeExc.mk :=
  ⟨(C17_begin_end_cursors (fun z : Int => z) 3 ⟨20, true, 3⟩ 3 (by decide) (by decide)
      (by decide) rfl).2.2.2.2.1,
   (C17_begin_end_cursors (fun z : Int => z) 3 ⟨20, true, 3⟩ 3 (by decide) (by decide)
      (by decide) rfl).2.2.2.2.2.1 2 (by decide),
   (C17_begin_end_cursors (fun z : Int => z) 3 ⟨20, true, 3⟩ 3 (by decide) (by decide)
      (by decide) rfl).2.2.2.2.2.2⟩

/-- C20. The integer offset operators move their receiver: after `c + n` (resp. `c - n`) the
receiver stands at `ptr_ + n` (resp. `ptr_ - n`), the returned cursor is a copy of the moved
receiver, and `begin_`, `end_` and `length_` of both are those of `c` before the call. -/
theorem C20_offset_operators_move_receiver (c : Iter) (n : Int) :
    ((c.add n).1.ptr_ = c.ptr_ + n ∧ (c.add n).2 = (c.add n).1
      ∧ (c.add n).1.begin_ = c.begin_ ∧ (c.add n).1.end_ = c.end_
      ∧ (c.add n).1.length_ = c.length_
      ∧ (c.add n).2.begin_ = c.begin_ ∧ (c.add n).2.end_ = c.end_
      ∧ (c.add n).2.length_ = c.length_)
    ∧ ((c.sub n).1.ptr_ = c.ptr_ - n ∧ (c.sub n).2 = (c.sub n).1
      ∧ (c.sub n).1.begin_ = c.begin_ ∧ (c.sub n).1.end_ = c.end_
      ∧ (c.sub n).1.length_ = c.length_
      ∧ (c.sub n).2.begin_ = c.begin_ ∧ (c.sub n).2.end_ = c.end_
      ∧ (c.sub n).2.length_ = c.length_) :=
  ⟨⟨rfl, rfl, rfl, rfl, rfl, rfl, rfl, rfl⟩, ⟨rfl, rfl, rfl, rfl, rfl, rfl, rfl, rfl⟩⟩

/-! ## Adopting and releasing one address -/

theorem pos_ctor (size : Int) {R : List PtrDetails} (t : Nat)
    (h : ∀ p ∈ R, 1 ≤ p.refcount) (hb : refcountOf R t + 1 < UINT_MOD) :
    ∀ p ∈ (Pointer.ctor size R t).2, 1 ≤ p.refcount := by
  rcases registry_split R t with habs | ⟨pre, q, post, hR, hq, hpre⟩
  · rw [Pointer.ctor_fresh size habs]
    intro p hp
    rcases List.mem_append.mp hp with hp | hp
    · exact h p hp
    · rw [List.mem_singleton.mp hp]
  · subst hR
    rw [refcountOf_split hpre hq] at hb
    rw [Pointer.ctor_found size hpre hq, Nat.mod_eq_of_lt hb]
    intro p hp
    rcases List.mem_append.mp hp with hp | hp
    · exact h p (by simp [hp])
    · rcases List.mem_cons.mp hp with hp | hp
      · rw [hp]; simp
      · exact h p (by simp [hp])

theorem pos_dtor {R : List PtrDetails} (self : Pointer) (h : ∀ p ∈ R, 1 ≤ p.refcount) :
    ∀ p ∈ Pointer.dtor R self, 1 ≤ p.refcount := by
  rcases registry_split R self.addr_ with habs | ⟨pre, q, post, hR, hq, hpre⟩
  · rw [Pointer.dtor_absent habs]; exact h
  · subst hR
    rw [Pointer.dtor_found hpre hq]
    by_cases hle : q.refcount ≤ 1
    · rw [if_pos hle]
      intro p hp
      rcases List.mem_append.mp hp with hp | hp
      · exact (mem_survivors.mp hp).2
      · exact (mem_survivors.mp hp).2
    · rw [if_neg hle]
      intro p hp
      rcases List.mem_append.mp hp with hp | hp
      · exact h p (by simp [hp])
      · rcases List.mem_cons.mp hp with hp | hp
        · rw [hp]; simp only; omega
        · exact h p (by simp [hp])

/-- C19 (counterexample). The registry with one record of reference count 4294967295 has
no record of count 0, and after constructing one more handle over its address it has one.
Such a registry is reachable: after 2^32 constructions over address 1 the record of
address 1 has reference count 0. -/
theorem C19_counterexample_construct_makes_dead_record :
    (∀ p ∈ [(⟨4294967295, 1, false, 0⟩ : PtrDetails)], 1 ≤ p.refcount)
    ∧ (Pointer.ctor 0 [⟨4294967295, 1, false, 0⟩] 1).2 = [⟨0, 1, false, 0⟩]
    ∧ ¬ (∀ p ∈ (Pointer.ctor 0 [⟨4294967295, 1, false, 0⟩] 1).2, 1 ≤ p.refcount)
    ∧ Reachable 0 { ref_container_ := [⟨0, 1, false, 0⟩],
                    live := List.replicate 4294967296 ⟨1, false, 0⟩ } := by
  refine ⟨by decide, by decide, by decide,
    ⟨List.replicate (4294967295 + 1) (Cmd.construct 1), ?_⟩⟩
  rw [execAll_init_replicate_construct 0 1 4294967295]
  rfl

/-- C19 (amended). If every record of the registry has reference count at least 1, the
same holds after the destructor, `Collect()` and `Shutdown()`, and after `Pointer(t)`, the
copy constructor, `operator=(T*)` and `operator=(Pointer)` provided the reference count of
the adopted address is below 2^32 - 1; and a registry reached from the empty one while
fewer than 2^32 - 1 handles are alive has no record of reference count 0. -/
theorem C19_no_dead_record_invariant (size : Int) (R : List PtrDetails)
    (h : ∀ p ∈ R, 1 ≤ p.refcount) :
    (∀ t, refcountOf R t + 1 < UINT_MOD → ∀ p ∈ (Pointer.ctor size R t).2, 1 ≤ p.refcount)
    ∧ (∀ ob : Pointer, refcountOf R ob.addr_ + 1 < UINT_MOD →
        ∀ p ∈ (Pointer.copy_ctor size R ob).2, 1 ≤ p.refcount)
    ∧ (∀ (self : Pointer) (t : Nat), refcountOf R t + 1 < UINT_MOD →
        ∀ p ∈ (Pointer.assign_raw size R self t).2.2, 1 ≤ p.refcount)
    ∧ (∀ self b : Pointer, refcountOf R b.addr_ + 1 < UINT_MOD →
        ∀ p ∈ (Pointer.assign size R self b).2, 1 ≤ p.refcount)
    ∧ (∀ self : Pointer, ∀ p ∈ Pointer.dtor R self, 1 ≤ p.refcount)
    ∧ (∀ p ∈ (Pointer.Collect R).2, 1 ≤ p.refcount)
    ∧ (∀ p ∈ Pointer.Shutdown R, 1 ≤ p.refcount)
    ∧ (∀ s, ReachableBelow size (UINT_MOD - 1) s →
        ∀ p ∈ s.ref_container_, 1 ≤ p.refcount) := by
  refine ⟨fun t hb => pos_ctor size t h hb, fun ob hb => pos_ctor size _ h hb, ?_, ?_,
    fun self => pos_dtor self h, ?_, ?_, ?_⟩
  · intro self t hb
    rw [Pointer.assign_raw_eq]
    exact pos_dtor _ (pos_ctor size t h hb)
  · intro self b hb
    rw [Pointer.assign_eq]
    exact pos_dtor _ (pos_ctor size _ h hb)
  · rw [Pointer.Collect_eq]
    intro p hp
    exact (mem_survivors.mp hp).2
  · unfold Pointer.Shutdown
    split_ifs
    · exact h
    · rw [Pointer.Collect_eq, survivors_map_zero]
      intro p hp
      simp at hp
  · intro s hs
    exact pos_of_agrees (Inv_of_ReachableBelow hs).1

/-- C19 (witness). On a registry with records of reference counts 1 and 2: destroying the
handle over the first address, and assigning a handle over the first address the second
one, leave no record of count 0. -/
theorem C19_no_dead_record_invariant_witness :
    (∀ p ∈ Pointer.dtor [⟨1, 5, false, 0⟩, ⟨2, 7, false, 0⟩] ⟨5, false, 0⟩, 1 ≤ p.refcount)
    ∧ (∀ p ∈ (Pointer.assign 0 [⟨1, 5, false, 0⟩, ⟨2, 7, false, 0⟩]
          ⟨5, false, 0⟩ ⟨7, false, 0⟩).2, 1 ≤ p.refcount) :=
  ⟨(C19_no_dead_record_invariant 0 [⟨1, 5, false, 0⟩, ⟨2, 7, false, 0⟩]
      (by decide)).2.2.2.2.1 ⟨5, false, 0⟩,
   (C19_no_dead_record_invariant 0 [⟨1, 5, false, 0⟩, ⟨2, 7, false, 0⟩]
      (by decide)).2.2.2.1 ⟨5, false, 0⟩ ⟨7, false, 0⟩ (by decide)⟩

/-! ## The operations with the destructor of the element type -/

theorem Pointer.delete_obj_nil (owned : Nat → List Pointer) (n : Nat) (rc : List PtrDetails) :
    Pointer.delete_obj owned n [] rc = some rc := by
  cases n <;> simp [Pointer.delete_obj]

theorem Pointer.dtor_del_absent (owned : Nat → List Pointer) (n : Nat)
    {rc : List PtrDetails} {self : Pointer} (h : ∀ p ∈ rc, p.mem_ptr ≠ self.addr_) :
    Pointer.dtor_del owned (n + 1) rc self = some rc := by
  simp [Pointer.dtor_del, Pointer.FindPtrInfo_eq_none.mpr h]

theorem Pointer.dtor_del_found (owned : Nat → List Pointer) (n : Nat)
    {pre post : List PtrDetails} {p : PtrDetails} {self : Pointer}
    (hpre : ∀ q ∈ pre, q.mem_ptr ≠ self.addr_) (hp : p.mem_ptr = self.addr_) :
    Pointer.dtor_del owned (n + 1) (pre ++ p :: post) self =
      if p.refcount ≤ 1 then
        Pointer.Collect_del.loop owned n (pre ++ { p with refcount := 0 } :: post)
      else some (pre ++ { p with refcount := p.refcount - 1 } :: post) := by
  simp only [Pointer.dtor_del, Pointer.FindPtrInfo_append_cons hpre hp, getElem?_split]
  by_cases h0 : p.refcount = 0
  · have hnot : ¬ p.refcount > 0 := by omega
    have hpe : ({ p with refcount := 0 } : PtrDetails) = p := by
      cases p; simp only [PtrDetails.mk.injEq, and_true] at h0 ⊢; exact h0.symm
    simp only [hnot, if_false, getElem?_split]
    rw [if_pos h0, if_pos (by omega), hpe]
  · have hpos : p.refcount > 0 := Nat.pos_of_ne_zero h0
    simp only [hpos, if_true, set_split, getElem?_split]
    by_cases h1 : p.refcount = 1
    · simp [h1]
    · have h2 : ¬ p.refcount ≤ 1 := by omega
      have h3 : ¬ p.refcount - 1 = 0 := by omega
      simp [h2, h3]

theorem Pointer.Collect_del.scan_none_iff {rc : List PtrDetails} :
    Pointer.Collect_del.scan rc = none ↔ ∀ p ∈ rc, 0 < p.refcount := by
  induction rc with
  | nil => simp [Pointer.Collect_del.scan]
  | cons p rest ih =>
    by_cases hp : 0 < p.refcount
    · simp [Pointer.Collect_del.scan, hp, ih]
    · simp [Pointer.Collect_del.scan, hp]

theorem Pointer.Collect_del.scan_some_spec {rc rc' : List PtrDetails} {p : PtrDetails}
    (h : Pointer.Collect_del.scan rc = some (p, rc')) :
    p ∈ rc ∧ p.refcount = 0 ∧ rc'.length + 1 = rc.length ∧ survivors rc' = survivors rc
      ∧ ∀ q ∈ rc', q ∈ rc := by
  induction rc generalizing rc' with
  | nil => simp [Pointer.Collect_del.scan] at h
  | cons x rest ih =>
    by_cases hx : 0 < x.refcount
    · simp only [Pointer.Collect_del.scan, hx, if_true, gt_iff_lt] at h
      cases hs : Pointer.Collect_del.scan rest with
      | none => simp [hs] at h
      | some pr =>
        obtain ⟨p', r⟩ := pr
        simp only [hs, Option.map_some', Option.some.injEq, Prod.mk.injEq] at h
        obtain ⟨h1, h2⟩ := h
        subst h1 h2
        obtain ⟨i1, i2, i3, i4, i5⟩ := ih hs
        refine ⟨List.mem_cons_of_mem _ i1, i2, by simp [i3], ?_, ?_⟩
        · simp only [survivors] at i4 ⊢
          simp [List.filter_cons, hx, i4]
        · intro q hq
          rcases List.mem_cons.mp hq with hq | hq
          · exact hq ▸ List.mem_cons_self _ _
          · exact List.mem_cons_of_mem _ (i5 q hq)
    · simp only [Pointer.Collect_del.scan, hx, if_false, gt_iff_lt, Option.some.injEq,
        Prod.mk.injEq] at h
      obtain ⟨h1, h2⟩ := h
      subst h1 h2
      exact ⟨List.mem_cons_self _ _, by omega, rfl,
        by simp [survivors, List.filter_cons, hx], fun q hq => List.mem_cons_of_mem _ hq⟩

/-- When the objects of the records of reference count 0 own no handle, the loop of `Collect`
with its `delete` calls returns the records of positive reference count, as the loop
without them does. -/
theorem Pointer.Collect_del_loop_eq (owned : Nat → List Pointer) (n : Nat) :
    ∀ rc : List PtrDetails, (∀ p ∈ rc, p.refcount = 0 → owned p.mem_ptr = []) →
      rc.length < n → Pointer.Collect_del.loop owned n rc = some (survivors rc) := by
  induction n with
  | zero => intro rc _ h; omega
  | succ n ih =>
    intro rc hown hlen
    rw [Pointer.Collect_del.loop]
    cases hs : Pointer.Collect_del.scan rc with
    | none =>
      simp only
      rw [survivors_eq_self (Pointer.Collect_del.scan_none_iff.mp hs)]
    | some pr =>
      obtain ⟨p, rc'⟩ := pr
      obtain ⟨h1, h2, h3, h4, h5⟩ := Pointer.Collect_del.scan_some_spec hs
      simp only
      rw [hown p h1 h2, Pointer.delete_obj_nil]
      simp only
      rw [ih rc' (fun q hq hz => hown q (h5 q hq) hz) (by omega), h4]

theorem Pointer.Collect_del_eq (owned : Nat → List Pointer) (n : Nat) (rc : List PtrDetails)
    (hown : ∀ p ∈ rc, p.refcount = 0 → owned p.mem_ptr = []) (hlen : rc.length < n) :
    Pointer.Collect_del owned n rc = some (Pointer.Collect rc) := by
  rw [Pointer.Collect_del, Pointer.Collect_del_loop_eq owned n rc hown hlen, Pointer.Collect_eq]
  rfl

theorem Pointer.ctor_length_le (size : Int) (rc : List PtrDetails) (t : Nat) :
    (Pointer.ctor size rc t).2.length ≤ rc.length + 1 := by
  rcases registry_split rc t with habs | ⟨pre, p, post, hR, hp, hpre⟩
  · rw [Pointer.ctor_fresh size habs]; simp
  · subst hR
    rw [Pointer.ctor_found size hpre hp]; simp

/-- For an element type that owns no handle, `Collect` with its `delete` calls is
`Pointer.Collect`. -/
theorem Pointer.Collect_del_no_owned (n : Nat) (rc : List PtrDetails) (h : rc.length < n) :
    Pointer.Collect_del (fun _ => []) n rc = some (Pointer.Collect rc) :=
  Pointer.Collect_del_eq (fun _ => []) n rc (fun _ _ _ => rfl) h

/-- For an element type that owns no handle, the destructor with the `delete` calls is
`Pointer.dtor`, on every registry. -/
theorem Pointer.dtor_del_no_owned (n : Nat) (rc : List PtrDetails) (self : Pointer)
    (h : rc.length + 1 < n) :
    Pointer.dtor_del (fun _ => []) n rc self = some (Pointer.dtor rc self) := by
  obtain ⟨m, rfl⟩ : ∃ m, n = m + 1 := ⟨n - 1, by omega⟩
  rcases registry_split rc self.addr_ with habs | ⟨pre, p, post, hR, hp, hpre⟩
  · rw [Pointer.dtor_del_absent _ m habs, Pointer.dtor_absent habs]
  · subst hR
    rw [Pointer.dtor_del_found _ m hpre hp, Pointer.dtor_found hpre hp]
    by_cases hle : p.refcount ≤ 1
    · rw [if_pos hle, if_pos hle,
        Pointer.Collect_del_loop_eq _ m _ (fun _ _ _ => rfl) (by simp at h ⊢; omega)]
      simp [survivors, List.filter_append, List.filter_cons]
    · rw [if_neg hle, if_neg hle]

/-- For an element type that owns no handle, the assignments with the `delete` calls are
`Pointer.assign_raw` and `Pointer.assign`. -/
theorem Pointer.assign_del_no_owned (size : Int) (n : Nat) (rc : List PtrDetails)
    (self b : Pointer) (t : Nat) (h : rc.length + 2 < n) :
    Pointer.assign_raw_del size (fun _ => []) n rc self t
        = some (Pointer.assign_raw size rc self t)
    ∧ Pointer.assign_del size (fun _ => []) n rc self b
        = some (Pointer.assign size rc self b) := by
  have h1 := Pointer.ctor_length_le size rc t
  have h2 := Pointer.ctor_length_le size rc b.addr_
  constructor
  · simp only [Pointer.assign_raw_del, Pointer.assign_raw]
    rw [Pointer.dtor_del_no_owned n _ _ (by omega)]
    rfl
  · simp only [Pointer.assign_del, Pointer.assign, Pointer.copy_ctor]
    rw [Pointer.dtor_del_no_owned n _ _ (by omega)]
    rfl

theorem execAll_of_execAllBelow (size : Int) (bound : Nat) (cmds : List Cmd) :
    ∀ s s', execAllBelow size bound s cmds = some s' → execAll size s cmds = some s' := by
  induction cmds with
  | nil => intro s s' h; simpa [execAllBelow, execAll] using h
  | cons c cs ih =>
    intro s s' h
    by_cases hb : s.live.length < bound
    · simp only [execAllBelow, hb, if_true] at h
      cases hs : exec size s c with
      | none => simp [hs] at h
      | some s1 =>
        simp only [hs] at h
        simp only [execAll, hs]
        exact ih s1 s' h
    · simp [execAllBelow, hb] at h

/-- The premises of the handle assignment postcondition hold in every state reached
while fewer than 2^32 - 1 handles are alive: no zero-count record, at most one record per
address, and every live handle has a record and the shape of the instantiation. -/
theorem invariants_of_ReachableBelow {size : Int} {s : Sys}
    (h : ReachableBelow size (UINT_MOD - 1) s) :
    (∀ p ∈ s.ref_container_, 0 < p.refcount) ∧ uniqueAddrs s.ref_container_
    ∧ ∀ x ∈ s.live, 0 < refcountOf s.ref_container_ x.addr_ ∧ x = handleOver size x.addr_ := by
  obtain ⟨hag, hshape⟩ := Inv_of_ReachableBelow h
  obtain ⟨cmds, hc⟩ := h
  refine ⟨pos_of_agrees hag,
    uniqueAddrs_execAll size cmds Sys.init s List.nodup_nil
      (execAll_of_execAllBelow size _ cmds _ _ hc), ?_⟩
  intro x hx
  refine ⟨?_, hshape x hx⟩
  rw [refcountOf_of_consistent (hag x.addr_), liveCount, List.countP_pos_iff]
  exact ⟨x, hx, by simp⟩

end GC
